import Mathlib

/-!
Verification of the NexAllot seat-arrangement core
(`src/ai/flows/seat-arrangement-flow.ts`).

The TypeScript flow is shallowly embedded below.  Mutable JavaScript state
(the student pool, the bench counter, the global assigned-count cursor) is
made explicit by state passing; `Math.random`-driven Fisher-Yates shuffles
are abstracted as function parameters constrained to produce permutations;
the CSV text (tokenised by the external PapaParse library) is modelled at
the post-tokenisation level as a header list plus rows of key/value cells.
Quote characters appearing inside the original error-message strings are
elided from the embedded messages; no claim depends on the message text.
-/

namespace NexAllot

/-- `Student` record (src/lib/types.ts, StudentSchema). -/
structure Student where
  name : String
  hallTicketNumber : String
  branch : String
  contactNumber : String
deriving DecidableEq, Repr, Inhabited

/-- `SeatingAssignment` record (src/lib/types.ts): student fields plus seat. -/
structure SeatingAssignment where
  name : String
  hallTicketNumber : String
  branch : String
  contactNumber : String
  block : String
  floor : String
  classroom : String
  benchNumber : String
deriving DecidableEq, Repr

/-- `Room` record (src/lib/types.ts, RoomSchema). -/
structure Room where
  number : String
  benches : Nat
  studentsPerBench : Nat
deriving DecidableEq, Repr

/-- `Floor` record (src/lib/types.ts, FloorSchema). -/
structure Floor where
  number : Nat
  rooms : List Room
deriving DecidableEq, Repr

/-- `Block` record (src/lib/types.ts, BlockSchema). -/
structure Block where
  name : String
  floors : List Floor
deriving DecidableEq, Repr

/-- `LayoutConfig` record (src/lib/types.ts, LayoutConfigSchema). -/
structure LayoutConfig where
  blocks : List Block
  startDate : String
  endDate : String
  examTimings : List String
deriving DecidableEq, Repr

/-- `ExamConfig` record (src/lib/types.ts, ExamConfigSchema). -/
structure ExamConfig where
  startDate : String
  endDate : String
  examTimings : List String
  useSamePlan : Bool
deriving DecidableEq, Repr

/-- ASCII lower-case letters and digits: the characters kept by
`normalizeHeader` (flow line 31, the `[^a-z0-9]` character class). -/
def keepChar (c : Char) : Bool :=
  (decide (Char.ofNat 97 ≤ c) && decide (c ≤ Char.ofNat 122)) ||
  (decide (Char.ofNat 48 ≤ c) && decide (c ≤ Char.ofNat 57))

/-- `normalizeHeader` (flow lines 30-32): lower-case, then drop every
character outside `[a-z0-9]` (the whitespace strip and the final trim are
subsumed by that character class). -/
def normalizeHeader (h : String) : String :=
  String.mk ((h.data.map Char.toLower).filter keepChar)

/-- Substring containment, `String.prototype.includes` in the source. -/
def strContains (hay needle : String) : Bool :=
  decide (needle.data <:+: hay.data)

/-- `findHeaderMatch` (flow lines 35-43): for each keyword in priority
order, return the first original header whose normalised form contains the
normalised keyword; otherwise try the next keyword. -/
def findHeaderMatch (headers : List String) : List String → Option String
  | [] => none
  | kw :: kws =>
    match headers.find? (fun h => strContains (normalizeHeader h) (normalizeHeader kw)) with
    | some h => some h
    | none => findHeaderMatch headers kws

/-- Keyword priority list for the `name` canonical field (flow line 60). -/
def nameKeywords : List String := ["name", "studentname", "fullname", "nameofstudent"]

/-- Keyword priority list for `hallTicketNumber` (flow line 61). -/
def hallTicketKeywords : List String :=
  ["hallticketnumber", "hallticket", "ticketnumber", "htno", "rollno", "roll number"]

/-- Keyword priority list for `branch` (flow line 62). -/
def branchKeywords : List String := ["branch", "department", "stream"]

/-- Keyword priority list for `contactNumber` (flow line 63). -/
def contactKeywords : List String :=
  ["contactnumber", "phone", "phonenumber", "mobile", "contact no"]

/-- A CSV file after PapaParse tokenisation (header row plus data rows);
each row is the parsed record, a list of header/cell pairs. -/
structure CSVFile where
  headers : List String
  rows : List (List (String × String))
deriving DecidableEq, Repr

/-- `row[header] || ""` (flow lines 72-75): record field lookup defaulting
to the empty string. -/
def lookupField (row : List (String × String)) (h : String) : String :=
  match row.find? (fun p => p.1 = h) with
  | some p => p.2
  | none => ""

/-- Error message of flow line 65 (quote characters elided). -/
def missingNameMsg : String :=
  "Could not find a Name column. Please ensure your CSV has a column for student names (e.g., Name, FullName)."

/-- Error message of flow line 66 (quote characters elided). -/
def missingHallTicketMsg : String :=
  "Could not find a Hall Ticket Number column. Please ensure your CSV has a column for hall tickets (e.g., HallTicket, Roll No)."

/-- Error message of flow line 67 (quote characters elided). -/
def missingBranchMsg : String :=
  "Could not find a Branch column. Please ensure your CSV has a column for student branch (e.g., Branch, Department)."

/-- Error message of flow line 68 (quote characters elided). -/
def missingContactMsg : String :=
  "Could not find a Contact Number column. Please ensure your CSV has a column for contact info (e.g., Phone, ContactNumber)."

/-- `parseStudentsFromCSV` (flow lines 46-85): resolve the four canonical
columns, reject the file naming the first missing one, then project every
row to a `Student` and keep only rows whose projected name and hall-ticket
number are non-empty. -/
def parseStudentsFromCSV (f : CSVFile) : Except String (List Student) :=
  match findHeaderMatch f.headers nameKeywords with
  | none => Except.error missingNameMsg
  | some nameHeader =>
    match findHeaderMatch f.headers hallTicketKeywords with
    | none => Except.error missingHallTicketMsg
    | some hallTicketHeader =>
      match findHeaderMatch f.headers branchKeywords with
      | none => Except.error missingBranchMsg
      | some branchHeader =>
        match findHeaderMatch f.headers contactKeywords with
        | none => Except.error missingContactMsg
        | some contactHeader =>
          Except.ok (((f.rows.map (fun row =>
            { name := lookupField row nameHeader
              hallTicketNumber := lookupField row hallTicketHeader
              branch := lookupField row branchHeader
              contactNumber := lookupField row contactHeader : Student }))).filter
            (fun s => !(s.name = "") && !(s.hallTicketNumber = "")))

/-- The per-file loop of the flow (lines 147-172): parse each file in
input order, concatenating the student lists; the first raised error
aborts the whole batch. -/
def mergeRosters : List CSVFile → Except String (List Student)
  | [] => Except.ok []
  | f :: fs =>
    match parseStudentsFromCSV f with
    | Except.error e => Except.error e
    | Except.ok s =>
      match mergeRosters fs with
      | Except.error e => Except.error e
      | Except.ok rest => Except.ok (s ++ rest)

/-- One step of building `studentsByBranch` (flow lines 194-200): push the
student onto its branch group, inserting a fresh group at the end of the
record when the branch key is new. -/
def addToGroups : List (String × List Student) → Student → List (String × List Student)
  | [], s => [(s.branch, [s])]
  | (k, v) :: rest, s =>
    if k = s.branch then (k, v ++ [s]) :: rest else (k, v) :: addToGroups rest s

/-- `studentsByBranch` (flow lines 194-200) as an insertion-ordered
association list, matching JavaScript object key order. -/
def groupByBranch (l : List Student) : List (String × List Student) :=
  l.foldl addToGroups []

/-- `studentsByBranch[branch]` lookup used by the flatMap of line 205. -/
def lookupGroup (k : String) : List (String × List Student) → List Student
  | [] => []
  | (k2, v) :: rest => if k2 = k then v else lookupGroup k rest

/-- The shuffled student pool (flow lines 202-205): shuffle each branch
group in place, shuffle the key list, and flatten the groups in the
shuffled key order.  `shG` and `shB` stand for the two uses of the
unseeded `shuffleArray`; every theorem constrains them to permutations. -/
def computePool (shG : List Student → List Student) (shB : List String → List String)
    (students : List Student) : List Student :=
  let gs := groupByBranch students
  let shuffled := gs.map (fun p => (p.1, shG p.2))
  (shB (gs.map (fun p => p.1))).flatMap (fun b => lookupGroup b shuffled)

/-- `totalCapacity` (flow lines 180-187): the sum of `benches *
studentsPerBench` over every room, with no ceiling applied. -/
def totalCapacity (layout : LayoutConfig) : Nat :=
  ((layout.blocks.map (fun b =>
    ((b.floors.map (fun f =>
      ((f.rooms.map (fun r => r.benches * r.studentsPerBench)).sum))).sum))).sum)

/-- A room's effective capacity (flow line 216): `min(benches, 45) *
studentsPerBench`. -/
def roomCapacity (r : Room) : Nat :=
  min r.benches 45 * r.studentsPerBench

/-- The layout capacity in the sense of spec section 3: the sum of the
`min(benches, 45) * studentsPerBench` effective room capacities. -/
def cappedCapacity (layout : LayoutConfig) : Nat :=
  ((layout.blocks.map (fun b =>
    ((b.floors.map (fun f => ((f.rooms.map roomCapacity).sum))).sum))).sum)

/-- `Array.prototype.findIndex` (flow line 248). -/
def findIndexOpt (p : Student → Bool) : List Student → Option Nat
  | [] => none
  | s :: rest => if p s then some 0 else (findIndexOpt p rest).map (fun n => n + 1)

/-- The partner-selection step of a two-seat bench (flow lines 244-259).
The JavaScript scans the whole pool `p0 :: p1 :: rest` with
`findIndex(s => s.branch !== student1.branch)`; index 0 (`p0` itself) can
never match, so the scan is equivalent to scanning `p1 :: rest` and
shifting the index by one; the final `shift()` then removes `p0`, which is
still at the head after the mid-pool `splice`.  Returns the chosen right
seat student together with the pool after both removals. -/
def pickPartner (p0 p1 : Student) (rest : List Student) : Student × List Student :=
  match findIndexOpt (fun s => !(s.branch = p0.branch)) (p1 :: rest) with
  | some j => ((p1 :: rest).getD j p1, (p1 :: rest).eraseIdx j)
  | none => (p1, rest)

/-- The allocator's mutable state: the remaining pool, the global
assigned-count cursor `studentIndex`, and the accumulated plan. -/
structure AllocState where
  pool : List Student
  idx : Nat
  plan : List SeatingAssignment
deriving Repr

/-- Build one `SeatingAssignment` (`{ ...student, ...seatInfo, benchNumber }`). -/
def mkAssignment (st : Student) (bn fs rn bench : String) : SeatingAssignment :=
  { name := st.name, hallTicketNumber := st.hallTicketNumber, branch := st.branch
    contactNumber := st.contactNumber, block := bn, floor := fs, classroom := rn
    benchNumber := bench }

/-- Project an assignment back to the student it seats. -/
def studentOf (a : SeatingAssignment) : Student :=
  { name := a.name, hallTicketNumber := a.hallTicketNumber, branch := a.branch
    contactNumber := a.contactNumber }

/-- The per-room slot loop (flow lines 215-273).  `s` is the number of
slot iterations left (`roomCapacity - i`), `c` the bench counter.  Each
iteration first re-checks the global-capacity / empty-pool guard; a
one-seat bench consumes one slot, a fully assigned two-seat bench consumes
two (the body's `i++` plus the loop increment; structurally, two `Nat`
layers), a two-seat bench assigned to a lone remaining student consumes
one and leaves the pool empty, and reaching the global capacity right
after the left seat of a bench exits the loop with the chosen partner
already removed from the pool but never seated. -/
def allocRoomSlots (T : Nat) (bn fs rn : String) (spb : Nat) :
    Nat → Nat → AllocState → AllocState
  | 0, _, st => st
  | 1, c, st =>
    if st.idx ≥ T ∨ st.pool = [] then st
    else if spb = 1 then
      match st.pool with
      | [] => st
      | p :: tl =>
        allocRoomSlots T bn fs rn spb 0 (c + 1)
          ⟨tl, st.idx + 1, st.plan ++ [mkAssignment p bn fs rn (toString c)]⟩
    else if spb = 2 then
      match st.pool with
      | [] => st
      | [p] =>
        allocRoomSlots T bn fs rn spb 0 (c + 1)
          ⟨[], st.idx + 1, st.plan ++ [mkAssignment p bn fs rn (toString c ++ "L")]⟩
      | p0 :: p1 :: rest =>
        let pr := pickPartner p0 p1 rest
        let planL := st.plan ++ [mkAssignment p0 bn fs rn (toString c ++ "L")]
        if st.idx + 1 ≥ T then ⟨pr.2, st.idx + 1, planL⟩
        else ⟨pr.2, st.idx + 2, planL ++ [mkAssignment pr.1 bn fs rn (toString c ++ "R")]⟩
    else
      allocRoomSlots T bn fs rn spb 0 c st
  | s2 + 2, c, st =>
    if st.idx ≥ T ∨ st.pool = [] then st
    else if spb = 1 then
      match st.pool with
      | [] => st
      | p :: tl =>
        allocRoomSlots T bn fs rn spb (s2 + 1) (c + 1)
          ⟨tl, st.idx + 1, st.plan ++ [mkAssignment p bn fs rn (toString c)]⟩
    else if spb = 2 then
      match st.pool with
      | [] => st
      | [p] =>
        allocRoomSlots T bn fs rn spb (s2 + 1) (c + 1)
          ⟨[], st.idx + 1, st.plan ++ [mkAssignment p bn fs rn (toString c ++ "L")]⟩
      | p0 :: p1 :: rest =>
        let pr := pickPartner p0 p1 rest
        let planL := st.plan ++ [mkAssignment p0 bn fs rn (toString c ++ "L")]
        if st.idx + 1 ≥ T then ⟨pr.2, st.idx + 1, planL⟩
        else
          allocRoomSlots T bn fs rn spb s2 (c + 1)
            ⟨pr.2, st.idx + 2, planL ++ [mkAssignment pr.1 bn fs rn (toString c ++ "R")]⟩
    else
      allocRoomSlots T bn fs rn spb (s2 + 1) c st

/-- Allocate one room (flow lines 215-218): fresh bench counter, slot
budget `min(benches, 45) * studentsPerBench`. -/
def allocRoom (T : Nat) (bn fs : String) (r : Room) (st : AllocState) : AllocState :=
  allocRoomSlots T bn fs r.number r.studentsPerBench (roomCapacity r) 1 st

/-- The rooms loop of one floor (flow lines 212-213): stops (`break`) the
moment the global cursor reaches `totalCapacity`. -/
def allocRooms (T : Nat) (bn fs : String) : List Room → AllocState → AllocState
  | [], st => st
  | r :: rs, st =>
    if st.idx ≥ T then st else allocRooms T bn fs rs (allocRoom T bn fs r st)

/-- The floors loop of one block (flow line 211). -/
def allocFloors (T : Nat) (bn : String) : List Floor → AllocState → AllocState
  | [], st => st
  | f :: fl, st => allocFloors T bn fl (allocRooms T bn (toString f.number) f.rooms st)

/-- The blocks loop (flow line 210). -/
def allocBlocks (T : Nat) : List Block → AllocState → AllocState
  | [], st => st
  | b :: bs, st => allocBlocks T bs (allocFloors T b.name b.floors st)

/-- The unsorted seating plan produced by the allocator. -/
def allocatePlan (layout : LayoutConfig) (pool : List Student) : List SeatingAssignment :=
  (allocBlocks (totalCapacity layout) layout.blocks ⟨pool, 0, []⟩).plan

/-- Code-point-wise comparison of character lists, the stand-in string
order used by the final sort. -/
def charListLe : List Char → List Char → Bool
  | [], _ => true
  | _ :: _, [] => false
  | c1 :: t1, c2 :: t2 =>
    if c1 = c2 then charListLe t1 t2 else decide (c1 < c2)

/-- Comparator of the final sort (flow line 278).  The source uses the
environment-dependent `localeCompare`; any comparator yields a permutation
of the plan, which is all the stated properties depend on, so the
code-point-wise string order stands in for it. -/
def ticketLE (a b : SeatingAssignment) : Prop :=
  charListLe a.hallTicketNumber.data b.hallTicketNumber.data = true

instance : DecidableRel ticketLE := fun a b =>
  inferInstanceAs
    (Decidable (charListLe a.hallTicketNumber.data b.hallTicketNumber.data = true))

/-- `seatingPlan.sort(...)` (flow line 278). -/
def sortPlan (plan : List SeatingAssignment) : List SeatingAssignment :=
  plan.insertionSort ticketLE

/-- Bump one branch counter inside a room's summary entry (flow lines 294-297). -/
def bumpInner : List (String × Nat) → String → List (String × Nat)
  | [], br => [(br, 1)]
  | (k, n) :: rest, br =>
    if k = br then (k, n + 1) :: rest else (k, n) :: bumpInner rest br

/-- Bump one (classroom, branch) pair in the summary (flow lines 289-298). -/
def bumpOuter : List (String × List (String × Nat)) → String → String →
    List (String × List (String × Nat))
  | [], c, br => [(c, bumpInner [] br)]
  | (k, inner) :: rest, c, br =>
    if k = c then (k, bumpInner inner br) :: rest else (k, inner) :: bumpOuter rest c br

/-- `roomBranchSummary` (flow lines 288-298): nested insertion-ordered
counting map from classroom to branch to count. -/
def roomBranchSummary (plan : List SeatingAssignment) :
    List (String × List (String × Nat)) :=
  plan.foldl (fun acc a => bumpOuter acc a.classroom a.branch) []

/-- Total of all counts in a room-branch summary. -/
def summaryTotal (summary : List (String × List (String × Nat))) : Nat :=
  ((summary.map (fun p => ((p.2.map (fun q => q.2)).sum))).sum)

/-- Error message of flow line 175. -/
def emptyRosterMsg : String :=
  "Could not extract any student data from the uploaded files. Please ensure files are correctly formatted and not empty."

/-- The flow's result (flow lines 171, 175, 300): either a bare error
string, or the full successful payload. -/
inductive FlowResult where
  | err (msg : String)
  | ok (seatingPlan : List SeatingAssignment) (examConfig : ExamConfig)
      (roomBranchSummary : List (String × List (String × Nat)))
      (allStudents : List Student)
deriving Repr

/-- Whether a flow result is the error shape. -/
def FlowResult.isErr : FlowResult → Bool
  | FlowResult.err _ => true
  | FlowResult.ok _ _ _ _ => false

/-- The seating plan of a flow result (empty for the error shape). -/
def FlowResult.planOf : FlowResult → List SeatingAssignment
  | FlowResult.err _ => []
  | FlowResult.ok p _ _ _ => p

/-- `seatingArrangementFlow` (flow lines 145-301) over CSV inputs: merge
the rosters (first parse error aborts the batch), reject an empty merged
roster, group and shuffle by branch, allocate seats over the layout, sort
the plan by hall-ticket number, and aggregate the room-branch summary. -/
def generateSeatingArrangement (shG : List Student → List Student)
    (shB : List String → List String) (files : List CSVFile)
    (layout : LayoutConfig) : FlowResult :=
  match mergeRosters files with
  | Except.error e => FlowResult.err e
  | Except.ok allStudents =>
    if allStudents.isEmpty then FlowResult.err emptyRosterMsg
    else
      let pool := computePool shG shB allStudents
      let plan := sortPlan (allocatePlan layout pool)
      FlowResult.ok plan
        ⟨layout.startDate, layout.endDate, layout.examTimings, true⟩
        (roomBranchSummary plan) allStudents

/-! ## Lemmas about `findIndexOpt` and `pickPartner` -/

theorem findIndexOpt_eq_none {p : Student → Bool} :
    ∀ {l : List Student}, findIndexOpt p l = none ↔ ∀ x ∈ l, p x = false := by
  intro l
  induction l with
  | nil => simp [findIndexOpt]
  | cons s rest ih =>
    by_cases hp : p s
    · simp [findIndexOpt, hp]
    · simp only [findIndexOpt, hp, Bool.false_eq_true, ite_false, List.mem_cons]
      cases hrest : findIndexOpt p rest with
      | some j =>
        simp only [Option.map]
        constructor
        · intro h; exact absurd h (by simp)
        · intro h
          have : findIndexOpt p rest = none :=
            ih.mpr (fun x hx => h x (Or.inr hx))
          rw [hrest] at this; exact absurd this (by simp)
      | none =>
        simp only [Option.map]
        constructor
        · intro _ x hx
          rcases hx with hx | hx
          · subst hx; simpa using hp
          · exact ih.mp hrest x hx
        · intro _; trivial

theorem findIndexOpt_eq_some {p : Student → Bool} :
    ∀ {l : List Student} {j : Nat}, findIndexOpt p l = some j →
      ∃ h : j < l.length, p (l.get ⟨j, h⟩) = true := by
  intro l
  induction l with
  | nil => intro j h; simp [findIndexOpt] at h
  | cons s rest ih =>
    intro j h
    by_cases hp : p s
    · simp only [findIndexOpt, hp, if_pos, Option.some.injEq] at h
      subst h
      exact ⟨by simp, by simpa using hp⟩
    · simp only [findIndexOpt, hp, Bool.false_eq_true, ite_false] at h
      cases hrest : findIndexOpt p rest with
      | none => rw [hrest] at h; simp at h
      | some j0 =>
        rw [hrest] at h
        simp only [Option.map, Option.some.injEq] at h
        subst h
        obtain ⟨hlt, hget⟩ := ih hrest
        exact ⟨by simpa using Nat.succ_lt_succ hlt, by simpa using hget⟩

theorem perm_getD_eraseIdx {α : Type} (d : α) :
    ∀ (l : List α) (j : Nat), j < l.length → l.Perm (l.getD j d :: l.eraseIdx j) := by
  intro l
  induction l with
  | nil => intro j h; simp at h
  | cons a rest ih =>
    intro j h
    cases j with
    | zero => simp [List.getD]
    | succ j0 =>
      have hj0 : j0 < rest.length := by simpa using Nat.lt_of_succ_lt_succ h
      have hperm := ih j0 hj0
      have h2 := (List.Perm.cons a hperm).trans
        (List.Perm.swap (rest.getD j0 d) a (rest.eraseIdx j0))
      simpa [List.getD] using h2

theorem pickPartner_perm (p0 p1 : Student) (rest : List Student) :
    (p1 :: rest).Perm ((pickPartner p0 p1 rest).1 :: (pickPartner p0 p1 rest).2) := by
  unfold pickPartner
  cases hf : findIndexOpt (fun s => !(s.branch = p0.branch)) (p1 :: rest) with
  | none => exact List.Perm.refl _
  | some j =>
    obtain ⟨hlt, _⟩ := findIndexOpt_eq_some hf
    simpa using perm_getD_eraseIdx p1 (p1 :: rest) j hlt

theorem getD_eq_get {α : Type} (d : α) :
    ∀ (l : List α) (j : Nat) (h : j < l.length), l.getD j d = l.get ⟨j, h⟩ := by
  intro l
  induction l with
  | nil => intro j h; simp at h
  | cons a rest ih =>
    intro j h
    cases j with
    | zero => simp [List.getD]
    | succ j0 => simpa [List.getD] using ih j0 (by simpa using Nat.lt_of_succ_lt_succ h)

/-- Concrete fixtures used by witnesses: two branch-A students and one
branch-B student. -/
def studA1 : Student := ⟨"Alice", "HT01", "A", "111"⟩

def studA2 : Student := ⟨"Bob", "HT02", "A", "222"⟩

def studB1 : Student := ⟨"Carol", "HT03", "B", "333"⟩

/-- C2: on a two-seat bench assignment over pool `p0 :: p1 :: rest`, the
chosen right-seat student has a branch different from the left student
`p0` whenever some student in the remaining pool has a different branch,
and the same-branch fallback (the pool's second element) is used exactly
when every remaining pool student shares the branch of `p0`. -/
theorem claim2_crossBranchPairing (p0 p1 : Student) (rest : List Student) :
    ((∃ x ∈ p1 :: rest, x.branch ≠ p0.branch) →
      (pickPartner p0 p1 rest).1.branch ≠ p0.branch) ∧
    ((∀ x ∈ p1 :: rest, x.branch = p0.branch) →
      pickPartner p0 p1 rest = (p1, rest)) := by
  constructor
  · rintro ⟨x, hx, hbr⟩
    unfold pickPartner
    cases hf : findIndexOpt (fun s => !(s.branch = p0.branch)) (p1 :: rest) with
    | none =>
      exact absurd (by simpa using findIndexOpt_eq_none.mp hf x hx) hbr
    | some j =>
      obtain ⟨hlt, hget⟩ := findIndexOpt_eq_some hf
      have hD := getD_eq_get p1 (p1 :: rest) j hlt
      have hne : ((p1 :: rest).get ⟨j, hlt⟩).branch ≠ p0.branch := by simpa using hget
      intro heq
      exact hne (by rw [← hD]; exact heq)
  · intro hall
    unfold pickPartner
    have hnone : findIndexOpt (fun s => !(s.branch = p0.branch)) (p1 :: rest) = none :=
      findIndexOpt_eq_none.mpr (fun x hx => by simpa using hall x hx)
    rw [hnone]

/-- Witness for C2 at concrete inputs: a cross-branch candidate forces a
cross-branch pair, and an all-same-branch pool takes the second element. -/
theorem claim2_crossBranchPairing_witness :
    (pickPartner studA1 studB1 []).1.branch ≠ studA1.branch ∧
    pickPartner studA1 studA2 [] = (studA2, []) := by
  constructor
  · exact (claim2_crossBranchPairing studA1 studB1 []).1
      ⟨studB1, by simp, by decide⟩
  · exact (claim2_crossBranchPairing studA1 studA2 []).2 (by decide)

/-- C3 counterexample: with headers `Roll No`, `Student Name`, `Dept`,
`Mobile`, the branch field does not resolve at all — the matcher looks for
a *header containing a keyword*, and `dept` contains none of `branch`,
`department`, `stream` — so the claim that `Dept` resolves to the branch
field fails. -/
theorem claim3_cex_branch_unresolved :
    findHeaderMatch ["Roll No", "Student Name", "Dept", "Mobile"] branchKeywords = none := by
  decide

/-- C3 amended: of the four canonical fields, name resolves to
`Student Name`, hallTicketNumber to `Roll No` and contactNumber to
`Mobile`, but branch fails to resolve (so a CSV with these headers is
rejected with the missing-branch error). -/
theorem claim3_amended_headerResolution :
    findHeaderMatch ["Roll No", "Student Name", "Dept", "Mobile"] nameKeywords =
      some "Student Name" ∧
    findHeaderMatch ["Roll No", "Student Name", "Dept", "Mobile"] hallTicketKeywords =
      some "Roll No" ∧
    findHeaderMatch ["Roll No", "Student Name", "Dept", "Mobile"] contactKeywords =
      some "Mobile" ∧
    findHeaderMatch ["Roll No", "Student Name", "Dept", "Mobile"] branchKeywords = none := by
  refine ⟨by decide, by decide, by decide, by decide⟩

/-! ## Lemmas about branch grouping and the shuffled pool -/

theorem addToGroups_flatten (s : Student) :
    ∀ gs : List (String × List Student),
      (((addToGroups gs s).map (fun p => p.2)).flatten).Perm
        ((gs.map (fun p => p.2)).flatten ++ [s]) := by
  intro gs
  induction gs with
  | nil => simp [addToGroups]
  | cons g rest ih =>
    obtain ⟨k, v⟩ := g
    by_cases hk : k = s.branch
    · simp only [addToGroups, hk, if_pos, List.map_cons, List.flatten_cons]
      have h1 : (v ++ [s]) ++ ((rest.map (fun p => p.2)).flatten) =
          v ++ ([s] ++ (rest.map (fun p => p.2)).flatten) := by simp
      have h2 := List.Perm.append_left v
        (@List.perm_append_comm _ [s] ((rest.map (fun p => p.2)).flatten))
      rw [h1]
      exact h2.trans (by simp)
    · simp only [addToGroups, hk, ite_false, List.map_cons, List.flatten_cons]
      have h2 := List.Perm.append_left v ih
      exact h2.trans (by simp)

theorem groupByBranch_flatten_aux :
    ∀ (l : List Student) (gs : List (String × List Student)),
      (((l.foldl addToGroups gs).map (fun p => p.2)).flatten).Perm
        ((gs.map (fun p => p.2)).flatten ++ l) := by
  intro l
  induction l with
  | nil => intro gs; simp
  | cons s l ih =>
    intro gs
    have h1 := ih (addToGroups gs s)
    have h2 := List.Perm.append_right l (addToGroups_flatten s gs)
    refine (List.foldl_cons l gs ▸ h1).trans (h2.trans ?_)
    simp

/-- The branch groups jointly contain exactly the grouped roster. -/
theorem groupByBranch_flatten (l : List Student) :
    (((groupByBranch l).map (fun p => p.2)).flatten).Perm l := by
  simpa [groupByBranch] using groupByBranch_flatten_aux l []

theorem addToGroups_keys (s : Student) :
    ∀ gs : List (String × List Student),
      (addToGroups gs s).map (fun p => p.1) =
        if s.branch ∈ gs.map (fun p => p.1) then gs.map (fun p => p.1)
        else gs.map (fun p => p.1) ++ [s.branch] := by
  intro gs
  induction gs with
  | nil => simp [addToGroups]
  | cons g rest ih =>
    obtain ⟨k, v⟩ := g
    by_cases hk : k = s.branch
    · simp [addToGroups, hk]
    · by_cases hm : s.branch ∈ rest.map (fun p => p.1)
      · simp [addToGroups, hk, hm, ih, Ne.symm hk]
      · simp [addToGroups, hk, hm, ih, Ne.symm hk]

theorem groupByBranch_keys_nodup_aux :
    ∀ (l : List Student) (gs : List (String × List Student)),
      ((gs.map (fun p => p.1)).Nodup) →
      (((l.foldl addToGroups gs).map (fun p => p.1)).Nodup) := by
  intro l
  induction l with
  | nil => intro gs h; simpa using h
  | cons s l ih =>
    intro gs h
    rw [List.foldl_cons]
    refine ih (addToGroups gs s) ?_
    rw [addToGroups_keys]
    by_cases hm : s.branch ∈ gs.map (fun p => p.1)
    · simpa [hm] using h
    · simp only [hm, ite_false]
      rw [List.nodup_append]
      refine ⟨h, by simp, ?_⟩
      intro x hx hx2
      rw [List.mem_singleton] at hx2
      exact hm (hx2 ▸ hx)

/-- The branch keys of `studentsByBranch` are distinct. -/
theorem groupByBranch_keys_nodup (l : List Student) :
    (((groupByBranch l).map (fun p => p.1)).Nodup) :=
  groupByBranch_keys_nodup_aux l [] (by simp)

theorem lookupGroup_skip (k : String) (w : List Student)
    (gs2 : List (String × List Student)) (b : String) (hne : b ≠ k) :
    lookupGroup b ((k, w) :: gs2) = lookupGroup b gs2 := by
  simp [lookupGroup, Ne.symm hne]

theorem flatMap_lookup_shuffled (shG : List Student → List Student) :
    ∀ gs : List (String × List Student),
      ((gs.map (fun p => p.1)).Nodup) →
      ((gs.map (fun p => p.1)).flatMap
          (fun b => lookupGroup b (gs.map (fun p => (p.1, shG p.2))))) =
        ((gs.map (fun p => shG p.2)).flatten) := by
  intro gs
  induction gs with
  | nil => simp
  | cons g rest ih =>
    intro hnd
    obtain ⟨k, v⟩ := g
    simp only [List.map_cons, List.flatMap_cons, List.flatten_cons] at *
    have hk : lookupGroup k ((k, shG v) :: rest.map (fun p => (p.1, shG p.2))) = shG v := by
      simp [lookupGroup]
    rw [hk]
    have hnotmem : k ∉ rest.map (fun p => p.1) := (List.nodup_cons.mp hnd).1
    have hrest : (rest.map (fun p => p.1)).flatMap
        (fun b => lookupGroup b ((k, shG v) :: rest.map (fun p => (p.1, shG p.2)))) =
        (rest.map (fun p => p.1)).flatMap
        (fun b => lookupGroup b (rest.map (fun p => (p.1, shG p.2)))) := by
      rw [List.flatMap_def, List.flatMap_def]
      refine congrArg List.flatten (List.map_congr_left ?_)
      intro b hb
      exact lookupGroup_skip k (shG v) _ b (fun he => hnotmem (he ▸ hb))
    rw [hrest, ih (List.nodup_cons.mp hnd).2]

theorem flatten_shuffled_perm (shG : List Student → List Student)
    (hG : ∀ l, (shG l).Perm l) :
    ∀ gs : List (String × List Student),
      (((gs.map (fun p => shG p.2)).flatten)).Perm (((gs.map (fun p => p.2)).flatten)) := by
  intro gs
  induction gs with
  | nil => simp
  | cons g rest ih =>
    obtain ⟨k, v⟩ := g
    simpa using List.Perm.append (hG v) ih

/-- The shuffled pool of flow lines 194-205 is a permutation of the
merged roster, for every pair of permutation-producing shuffles. -/
theorem computePool_perm (shG : List Student → List Student)
    (shB : List String → List String) (hG : ∀ l, (shG l).Perm l)
    (hB : ∀ l, (shB l).Perm l) (students : List Student) :
    (computePool shG shB students).Perm students := by
  unfold computePool
  have h1 := List.Perm.flatMap_right
    (fun b => lookupGroup b ((groupByBranch students).map (fun p => (p.1, shG p.2))))
    (hB ((groupByBranch students).map (fun p => p.1)))
  have h2 := flatMap_lookup_shuffled shG (groupByBranch students)
    (groupByBranch_keys_nodup students)
  rw [h2] at h1
  exact h1.trans ((flatten_shuffled_perm shG hG (groupByBranch students)).trans
    (groupByBranch_flatten students))

/-! ## Lemmas about the room-branch summary -/

theorem bumpInner_total (br : String) :
    ∀ inner : List (String × Nat),
      (((bumpInner inner br).map (fun q => q.2)).sum) =
        ((inner.map (fun q => q.2)).sum) + 1 := by
  intro inner
  induction inner with
  | nil => simp [bumpInner]
  | cons q rest ih =>
    obtain ⟨k, n⟩ := q
    by_cases hk : k = br
    · simp [bumpInner, hk, Nat.add_assoc, Nat.add_comm, Nat.add_left_comm]
    · simp only [bumpInner, hk, ite_false, List.map_cons, List.sum_cons, ih]
      omega

theorem bumpOuter_total (c br : String) :
    ∀ summ : List (String × List (String × Nat)),
      summaryTotal (bumpOuter summ c br) = summaryTotal summ + 1 := by
  intro summ
  induction summ with
  | nil => simp [bumpOuter, summaryTotal, bumpInner]
  | cons p rest ih =>
    obtain ⟨k, inner⟩ := p
    by_cases hk : k = c
    · simp only [bumpOuter, hk, if_pos, summaryTotal, List.map_cons, List.sum_cons,
        bumpInner_total]
      omega
    · simp only [bumpOuter, hk, ite_false, summaryTotal, List.map_cons, List.sum_cons] at *
      omega

theorem summaryTotal_foldl :
    ∀ (plan : List SeatingAssignment) (acc : List (String × List (String × Nat))),
      summaryTotal (plan.foldl (fun acc a => bumpOuter acc a.classroom a.branch) acc) =
        summaryTotal acc + plan.length := by
  intro plan
  induction plan with
  | nil => intro acc; simp
  | cons a plan ih =>
    intro acc
    rw [List.foldl_cons, ih, bumpOuter_total]
    simp [Nat.add_assoc, Nat.add_comm, Nat.add_left_comm]

/-- The summary counts always add up to the plan's length. -/
theorem roomBranchSummary_total (plan : List SeatingAssignment) :
    summaryTotal (roomBranchSummary plan) = plan.length := by
  simpa [roomBranchSummary, summaryTotal] using summaryTotal_foldl plan []

/-! ## Bench label lemmas

A room has at most `min(benches, 45) = 45` effective benches, so every
bench counter that reaches a label is at most 46; on that range the
decimal rendering of the counter is injective, which gives distinctness
of bench labels inside a room. -/

theorem natToString_inj_bounded :
    ∀ m, m < 47 → ∀ n, n < 47 → toString m = toString n → m = n := by decide

theorem string_data_inj {s t : String} (h : s.data = t.data) : s = t := by
  cases s
  cases t
  exact congrArg String.mk h

theorem strL_ne_strR (s t : String) : s ++ "L" ≠ t ++ "R" := by
  intro h
  have hd : s.data ++ ("L" : String).data = t.data ++ ("R" : String).data := by
    have h2 := congrArg String.data h
    rwa [String.data_append, String.data_append] at h2
  have hlen : (("L" : String).data).length = (("R" : String).data).length := by decide
  have := (List.append_inj' hd hlen).2
  have hfalse : ("L" : String).data ≠ ("R" : String).data := by decide
  exact hfalse this

theorem strSuffix_inj (s t u : String) (h : s ++ u = t ++ u) : s = t := by
  have hd := congrArg String.data h
  rw [String.data_append, String.data_append] at hd
  exact string_data_inj ((List.append_inj' hd rfl).1)

/-- The bench-number strings a room with `studentsPerBench = spb` can emit
from a bench counter at least `c` (and at most 46). -/
def BenchLabel (spb c : Nat) (str : String) : Prop :=
  ∃ k, c ≤ k ∧ k ≤ 46 ∧
    ((spb = 1 ∧ str = toString k) ∨
     (spb = 2 ∧ (str = toString k ++ "L" ∨ str = toString k ++ "R")))

theorem benchLabel_mono {spb c : Nat} {str : String} (h : BenchLabel spb (c + 1) str) :
    BenchLabel spb c str := by
  obtain ⟨k, hk1, hk2, hk3⟩ := h
  exact ⟨k, by omega, hk2, hk3⟩

theorem benchLabel_fresh_1 {c : Nat} (hc : c ≤ 46) {str : String}
    (h : BenchLabel 1 (c + 1) str) : toString c ≠ str := by
  obtain ⟨k, hk1, hk2, hk3⟩ := h
  rcases hk3 with ⟨_, rfl⟩ | ⟨hsp, _⟩
  · intro he
    have := natToString_inj_bounded c (by omega) k (by omega) he
    omega
  · exact absurd hsp (by omega)

theorem benchLabel_fresh_2L {c : Nat} (hc : c ≤ 46) {str : String}
    (h : BenchLabel 2 (c + 1) str) : toString c ++ "L" ≠ str := by
  obtain ⟨k, hk1, hk2, hk3⟩ := h
  rcases hk3 with ⟨hsp, _⟩ | ⟨_, hL | hR⟩
  · exact absurd hsp (by omega)
  · subst hL
    intro he
    have := natToString_inj_bounded c (by omega) k (by omega)
      (strSuffix_inj (toString c) (toString k) "L" he)
    omega
  · subst hR
    exact strL_ne_strR (toString c) (toString k)

theorem benchLabel_fresh_2R {c : Nat} (hc : c ≤ 46) {str : String}
    (h : BenchLabel 2 (c + 1) str) : toString c ++ "R" ≠ str := by
  obtain ⟨k, hk1, hk2, hk3⟩ := h
  rcases hk3 with ⟨hsp, _⟩ | ⟨_, hL | hR⟩
  · exact absurd hsp (by omega)
  · subst hL
    intro he
    exact strL_ne_strR (toString k) (toString c) he.symm
  · subst hR
    intro he
    have := natToString_inj_bounded c (by omega) k (by omega)
      (strSuffix_inj (toString c) (toString k) "R" he)
    omega

theorem studentOf_mkAssignment (st : Student) (bn fs rn b : String) :
    studentOf (mkAssignment st bn fs rn b) = st := rfl

theorem pickPartner_length (p0 p1 : Student) (rest : List Student) :
    ((pickPartner p0 p1 rest).2).length + 1 = rest.length + 1 := by
  have h := (pickPartner_perm p0 p1 rest).length_eq
  simpa using h.symm

/-! ## The per-room allocation invariant

Main room-level lemma: as long as the remaining slot budget still fits
under the global capacity `T` (which holds throughout the traversal since
`T` is the *uncapped* capacity sum while slot budgets are capped), the
slot loop seats exactly `min slots pool` students, preserves the pool as
a multiset (in particular the mid-bench capacity break of flow line 263,
which would drop an already-removed partner, can never fire), stamps all
assignments with the room's identifiers, and emits pairwise-distinct
bench numbers. -/

theorem allocRoomSlots_zero (T : Nat) (bn fs rn : String) (spb c : Nat) (st : AllocState) :
    allocRoomSlots T bn fs rn spb 0 c st = st := rfl

theorem allocRoomSlots_nil (T : Nat) (bn fs rn : String) (spb t c : Nat)
    (idx : Nat) (plan : List SeatingAssignment) (hspb : spb = 1 ∨ spb = 2) :
    allocRoomSlots T bn fs rn spb (t + 1) c ⟨[], idx, plan⟩ = ⟨[], idx, plan⟩ := by
  rcases hspb with rfl | rfl
  · cases t with
    | zero =>
      have h0 : allocRoomSlots T bn fs rn 1 1 c ⟨[], idx, plan⟩ =
          if idx ≥ T ∨ ([] : List Student) = [] then (⟨[], idx, plan⟩ : AllocState)
          else (⟨[], idx, plan⟩ : AllocState) := rfl
      rw [h0, ite_self]
    | succ t2 =>
      have h0 : allocRoomSlots T bn fs rn 1 (t2 + 2) c ⟨[], idx, plan⟩ =
          if idx ≥ T ∨ ([] : List Student) = [] then (⟨[], idx, plan⟩ : AllocState)
          else (⟨[], idx, plan⟩ : AllocState) := rfl
      rw [h0, ite_self]
  · cases t with
    | zero =>
      have h0 : allocRoomSlots T bn fs rn 2 1 c ⟨[], idx, plan⟩ =
          if idx ≥ T ∨ ([] : List Student) = [] then (⟨[], idx, plan⟩ : AllocState)
          else (⟨[], idx, plan⟩ : AllocState) := rfl
      rw [h0, ite_self]
    | succ t2 =>
      have h0 : allocRoomSlots T bn fs rn 2 (t2 + 2) c ⟨[], idx, plan⟩ =
          if idx ≥ T ∨ ([] : List Student) = [] then (⟨[], idx, plan⟩ : AllocState)
          else (⟨[], idx, plan⟩ : AllocState) := rfl
      rw [h0, ite_self]

theorem allocRoomSlots_cons_one (T : Nat) (bn fs rn : String) (t c : Nat)
    (p : Student) (tl : List Student) (idx : Nat) (plan : List SeatingAssignment)
    (h : ¬(idx ≥ T ∨ p :: tl = [])) :
    allocRoomSlots T bn fs rn 1 (t + 1) c ⟨p :: tl, idx, plan⟩ =
      allocRoomSlots T bn fs rn 1 t (c + 1)
        ⟨tl, idx + 1, plan ++ [mkAssignment p bn fs rn (toString c)]⟩ := by
  cases t with
  | zero =>
    have h0 : allocRoomSlots T bn fs rn 1 1 c ⟨p :: tl, idx, plan⟩ =
        if idx ≥ T ∨ p :: tl = [] then (⟨p :: tl, idx, plan⟩ : AllocState)
        else allocRoomSlots T bn fs rn 1 0 (c + 1)
          ⟨tl, idx + 1, plan ++ [mkAssignment p bn fs rn (toString c)]⟩ := rfl
    rw [h0, if_neg h]
  | succ t2 =>
    have h0 : allocRoomSlots T bn fs rn 1 (t2 + 2) c ⟨p :: tl, idx, plan⟩ =
        if idx ≥ T ∨ p :: tl = [] then (⟨p :: tl, idx, plan⟩ : AllocState)
        else allocRoomSlots T bn fs rn 1 (t2 + 1) (c + 1)
          ⟨tl, idx + 1, plan ++ [mkAssignment p bn fs rn (toString c)]⟩ := rfl
    rw [h0, if_neg h]

theorem allocRoomSlots_lone_two (T : Nat) (bn fs rn : String) (t c : Nat)
    (p : Student) (idx : Nat) (plan : List SeatingAssignment)
    (h : ¬(idx ≥ T ∨ ([p] : List Student) = [])) :
    allocRoomSlots T bn fs rn 2 (t + 1) c ⟨[p], idx, plan⟩ =
      allocRoomSlots T bn fs rn 2 t (c + 1)
        ⟨[], idx + 1, plan ++ [mkAssignment p bn fs rn (toString c ++ "L")]⟩ := by
  cases t with
  | zero =>
    have h0 : allocRoomSlots T bn fs rn 2 1 c ⟨[p], idx, plan⟩ =
        if idx ≥ T ∨ ([p] : List Student) = [] then (⟨[p], idx, plan⟩ : AllocState)
        else allocRoomSlots T bn fs rn 2 0 (c + 1)
          ⟨[], idx + 1, plan ++ [mkAssignment p bn fs rn (toString c ++ "L")]⟩ := rfl
    rw [h0, if_neg h]
  | succ t2 =>
    have h0 : allocRoomSlots T bn fs rn 2 (t2 + 2) c ⟨[p], idx, plan⟩ =
        if idx ≥ T ∨ ([p] : List Student) = [] then (⟨[p], idx, plan⟩ : AllocState)
        else allocRoomSlots T bn fs rn 2 (t2 + 1) (c + 1)
          ⟨[], idx + 1, plan ++ [mkAssignment p bn fs rn (toString c ++ "L")]⟩ := rfl
    rw [h0, if_neg h]

theorem allocRoomSlots_full_two (T : Nat) (bn fs rn : String) (t c : Nat)
    (p0 p1 : Student) (rest : List Student) (idx : Nat) (plan : List SeatingAssignment)
    (h : ¬(idx ≥ T ∨ (p0 :: p1 :: rest : List Student) = []))
    (hbrk : ¬(idx + 1 ≥ T)) :
    allocRoomSlots T bn fs rn 2 (t + 1) c ⟨p0 :: p1 :: rest, idx, plan⟩ =
      allocRoomSlots T bn fs rn 2 (t - 1) (c + 1)
        ⟨(pickPartner p0 p1 rest).2, idx + 2,
          (plan ++ [mkAssignment p0 bn fs rn (toString c ++ "L")]) ++
            [mkAssignment (pickPartner p0 p1 rest).1 bn fs rn (toString c ++ "R")]⟩ := by
  cases t with
  | zero =>
    have h0 : allocRoomSlots T bn fs rn 2 1 c ⟨p0 :: p1 :: rest, idx, plan⟩ =
        if idx ≥ T ∨ (p0 :: p1 :: rest : List Student) = [] then
          (⟨p0 :: p1 :: rest, idx, plan⟩ : AllocState)
        else if idx + 1 ≥ T then
          ⟨(pickPartner p0 p1 rest).2, idx + 1,
            plan ++ [mkAssignment p0 bn fs rn (toString c ++ "L")]⟩
        else allocRoomSlots T bn fs rn 2 0 (c + 1)
          ⟨(pickPartner p0 p1 rest).2, idx + 2,
            (plan ++ [mkAssignment p0 bn fs rn (toString c ++ "L")]) ++
              [mkAssignment (pickPartner p0 p1 rest).1 bn fs rn (toString c ++ "R")]⟩ := rfl
    rw [h0, if_neg h, if_neg hbrk]
  | succ t2 =>
    have h0 : allocRoomSlots T bn fs rn 2 (t2 + 2) c ⟨p0 :: p1 :: rest, idx, plan⟩ =
        if idx ≥ T ∨ (p0 :: p1 :: rest : List Student) = [] then
          (⟨p0 :: p1 :: rest, idx, plan⟩ : AllocState)
        else if idx + 1 ≥ T then
          ⟨(pickPartner p0 p1 rest).2, idx + 1,
            plan ++ [mkAssignment p0 bn fs rn (toString c ++ "L")]⟩
        else allocRoomSlots T bn fs rn 2 t2 (c + 1)
          ⟨(pickPartner p0 p1 rest).2, idx + 2,
            (plan ++ [mkAssignment p0 bn fs rn (toString c ++ "L")]) ++
              [mkAssignment (pickPartner p0 p1 rest).1 bn fs rn (toString c ++ "R")]⟩ := rfl
    rw [h0, if_neg h, if_neg hbrk]
    rfl

theorem allocRoomSlots_spec (T : Nat) (bn fs rn : String) (spb : Nat) :
    ∀ (s c : Nat) (st : AllocState),
      (spb = 1 ∨ spb = 2) →
      (spb = 2 → s % 2 = 0) →
      st.idx + s ≤ T →
      (spb = 1 → c + s ≤ 46) →
      (spb = 2 → 2 * c + s ≤ 92) →
      ∃ new : List SeatingAssignment,
        (allocRoomSlots T bn fs rn spb s c st).plan = st.plan ++ new ∧
        st.pool.Perm (new.map studentOf ++ (allocRoomSlots T bn fs rn spb s c st).pool) ∧
        (allocRoomSlots T bn fs rn spb s c st).idx = st.idx + new.length ∧
        new.length = min s st.pool.length ∧
        (∀ a ∈ new, a.block = bn ∧ a.floor = fs ∧ a.classroom = rn ∧
          BenchLabel spb c a.benchNumber) ∧
        ((new.map (fun a => a.benchNumber)).Nodup) := by
  intro s
  induction s using Nat.strong_induction_on with
  | _ s ih =>
    intro c st h1 h2 h3 h4 h5
    obtain ⟨pool, idx, plan⟩ := st
    rcases s with _ | t
    · refine ⟨[], ?_, ?_, ?_, by simp, by simp, by simp⟩
      · rw [allocRoomSlots_zero]; simp
      · rw [allocRoomSlots_zero]; simp
      · rw [allocRoomSlots_zero]; simp
    · have h3x : idx + (t + 1) ≤ T := h3
      have hidx : ¬(idx ≥ T) := by omega
      cases pool with
      | nil =>
        rw [allocRoomSlots_nil T bn fs rn spb t c idx plan h1]
        exact ⟨[], by simp, by simp, by simp, by simp, by simp, by simp⟩
      | cons p tl =>
        rcases h1 with hspb | hspb
        · -- studentsPerBench = 1
          subst hspb
          have hcond : ¬(idx ≥ T ∨ p :: tl = []) := by simp [hidx]
          have h4x : c + (t + 1) ≤ 46 := h4 rfl
          rw [allocRoomSlots_cons_one T bn fs rn t c p tl idx plan hcond]
          obtain ⟨new2, hplan2, hperm2, hidx2, hlen2, hmem2, hnd2⟩ :=
            ih t (by omega) (c + 1)
              ⟨tl, idx + 1, plan ++ [mkAssignment p bn fs rn (toString c)]⟩
              (Or.inl rfl) (by omega) (by show idx + 1 + t ≤ T; omega)
              (fun _ => by show c + 1 + t ≤ 46; omega) (by omega)
          refine ⟨mkAssignment p bn fs rn (toString c) :: new2, ?_, ?_, ?_, ?_, ?_, ?_⟩
          · rw [hplan2]; simp
          · simp only [List.map_cons, studentOf_mkAssignment, List.cons_append]
            exact List.Perm.cons p (by simpa using hperm2)
          · rw [hidx2]; simp; omega
          · have hl2 : new2.length = min t tl.length := by simpa using hlen2
            simp only [List.length_cons, hl2, List.length_cons]
            omega
          · intro a ha
            rcases List.mem_cons.mp ha with rfl | ha2
            · exact ⟨rfl, rfl, rfl, c, le_refl c, by omega, Or.inl ⟨rfl, rfl⟩⟩
            · obtain ⟨hb, hf, hc, hl⟩ := hmem2 a ha2
              exact ⟨hb, hf, hc, benchLabel_mono hl⟩
          · simp only [List.map_cons, List.nodup_cons]
            refine ⟨?_, hnd2⟩
            intro hmem
            obtain ⟨a, ha, hae⟩ := List.mem_map.mp hmem
            obtain ⟨_, _, _, hl⟩ := hmem2 a ha
            exact benchLabel_fresh_1 (by omega) hl hae.symm
        · -- studentsPerBench = 2
          subst hspb
          have ht1 : t % 2 = 1 := by have := h2 rfl; omega
          have h5x : 2 * c + (t + 1) ≤ 92 := h5 rfl
          cases tl with
          | nil =>
            have hcond : ¬(idx ≥ T ∨ ([p] : List Student) = []) := by simp [hidx]
            rw [allocRoomSlots_lone_two T bn fs rn t c p idx plan hcond]
            rcases t with _ | t2
            · omega
            · rw [allocRoomSlots_nil T bn fs rn 2 t2 (c + 1) (idx + 1)
                (plan ++ [mkAssignment p bn fs rn (toString c ++ "L")]) (Or.inr rfl)]
              refine ⟨[mkAssignment p bn fs rn (toString c ++ "L")], by simp, ?_, ?_,
                by simp, ?_, by simp⟩
              · simp [studentOf_mkAssignment]
              · simp
              · intro a ha
                rcases List.mem_cons.mp ha with rfl | ha2
                · exact ⟨rfl, rfl, rfl, c, le_refl c, by omega, Or.inr ⟨rfl, Or.inl rfl⟩⟩
                · exact absurd ha2 (List.not_mem_nil a)
          | cons p1 rest =>
            have hcond : ¬(idx ≥ T ∨ (p :: p1 :: rest : List Student) = []) := by
              simp [hidx]
            have hbrk : ¬(idx + 1 ≥ T) := by omega
            rw [allocRoomSlots_full_two T bn fs rn t c p p1 rest idx plan hcond hbrk]
            rcases t with _ | t2
            · omega
            · have hsub : t2 + 1 - 1 = t2 := rfl
              rw [hsub]
              obtain ⟨new2, hplan2, hperm2, hidx2, hlen2, hmem2, hnd2⟩ :=
                ih t2 (by omega) (c + 1)
                  ⟨(pickPartner p p1 rest).2, idx + 2,
                    (plan ++ [mkAssignment p bn fs rn (toString c ++ "L")]) ++
                      [mkAssignment (pickPartner p p1 rest).1 bn fs rn
                        (toString c ++ "R")]⟩
                  (Or.inr rfl) (fun _ => by omega)
                  (by show idx + 2 + t2 ≤ T; omega)
                  (fun hx => absurd hx (by omega))
                  (fun _ => by show 2 * (c + 1) + t2 ≤ 92; omega)
              have hplen : ((pickPartner p p1 rest).2).length + 1 = rest.length + 1 :=
                pickPartner_length p p1 rest
              refine ⟨mkAssignment p bn fs rn (toString c ++ "L") ::
                mkAssignment (pickPartner p p1 rest).1 bn fs rn (toString c ++ "R") ::
                new2, ?_, ?_, ?_, ?_, ?_, ?_⟩
              · rw [hplan2]; simp
              · simp only [List.map_cons, studentOf_mkAssignment, List.cons_append]
                refine List.Perm.cons p ?_
                refine (pickPartner_perm p p1 rest).trans ?_
                exact List.Perm.cons (pickPartner p p1 rest).1 (by simpa using hperm2)
              · rw [hidx2]; simp; omega
              · have hl2 : new2.length = min t2 ((pickPartner p p1 rest).2).length := by
                  simpa using hlen2
                simp only [List.length_cons, hl2]
                omega
              · intro a ha
                rcases List.mem_cons.mp ha with rfl | ha2
                · exact ⟨rfl, rfl, rfl, c, le_refl c, by omega, Or.inr ⟨rfl, Or.inl rfl⟩⟩
                rcases List.mem_cons.mp ha2 with rfl | ha3
                · exact ⟨rfl, rfl, rfl, c, le_refl c, by omega, Or.inr ⟨rfl, Or.inr rfl⟩⟩
                · obtain ⟨hb, hf, hc, hl⟩ := hmem2 a ha3
                  exact ⟨hb, hf, hc, benchLabel_mono hl⟩
              · simp only [List.map_cons, List.nodup_cons, List.mem_cons]
                have hc46 : c ≤ 46 := by omega
                refine ⟨?_, ?_, hnd2⟩
                · rintro (he | hmem)
                  · exact strL_ne_strR (toString c) (toString c) he
                  · obtain ⟨a, ha, hae⟩ := List.mem_map.mp hmem
                    obtain ⟨_, _, _, hl⟩ := hmem2 a ha
                    exact benchLabel_fresh_2L hc46 hl hae.symm
                · intro hmem
                  obtain ⟨a, ha, hae⟩ := List.mem_map.mp hmem
                  obtain ⟨_, _, _, hl⟩ := hmem2 a ha
                  exact benchLabel_fresh_2R hc46 hl hae.symm

/-! ## Traversal of the layout -/

/-- Sum of effective room capacities over a list of rooms. -/
def roomsCapacity (rs : List Room) : Nat := (rs.map roomCapacity).sum

/-- Sum of effective room capacities over a list of floors. -/
def floorsCapacity (fl : List Floor) : Nat :=
  (fl.map (fun f => roomsCapacity f.rooms)).sum

/-- Sum of effective room capacities over a list of blocks. -/
def blocksCapacity (bs : List Block) : Nat :=
  (bs.map (fun b => floorsCapacity b.floors)).sum

theorem cappedCapacity_eq (layout : LayoutConfig) :
    cappedCapacity layout = blocksCapacity layout.blocks := rfl

/-- Rooms of one floor, paired with their (block name, floor string) id. -/
def roomsWithIds (bn fs : String) (rs : List Room) : List ((String × String) × Room) :=
  rs.map (fun r => ((bn, fs), r))

/-- Rooms of one block, paired with ids, in traversal order. -/
def floorsWithIds (bn : String) (fl : List Floor) : List ((String × String) × Room) :=
  (fl.map (fun f => roomsWithIds bn (toString f.number) f.rooms)).flatten

/-- All rooms of the layout, paired with ids, in traversal order. -/
def blocksWithIds (bs : List Block) : List ((String × String) × Room) :=
  (bs.map (fun b => floorsWithIds b.name b.floors)).flatten

/-- All rooms of the layout with their identifying strings. -/
def layoutRooms (layout : LayoutConfig) : List ((String × String) × Room) :=
  blocksWithIds layout.blocks

/-- The (block, floor, classroom) identifier of an id-paired room. -/
def roomIdOf (q : (String × String) × Room) : String × String × String :=
  (q.1.1, q.1.2, q.2.number)

/-- All (block, floor, classroom) identifiers of the layout. -/
def roomIds (layout : LayoutConfig) : List (String × String × String) :=
  (layoutRooms layout).map roomIdOf

/-- What one room's segment of the plan satisfies: every assignment
carries the room's identifiers, bench numbers inside the room are
pairwise distinct, and the segment respects the capped room capacity. -/
def SegProp (q : ((String × String) × Room) × List SeatingAssignment) : Prop :=
  (∀ a ∈ q.2, a.block = q.1.1.1 ∧ a.floor = q.1.1.2 ∧ a.classroom = q.1.2.number) ∧
  ((q.2.map (fun a => a.benchNumber)).Nodup) ∧
  q.2.length ≤ roomCapacity q.1.2

/-- Relation between the allocator state before and after traversing a
layout fragment of capped capacity `cap` covering the id-paired rooms
`ids`: the plan grows by one segment per room (in order), the pool is
conserved as a multiset, the cursor advances by the number seated, and
exactly `min cap pool` students are seated. -/
def TraverseSpec (cap : Nat) (ids : List ((String × String) × Room))
    (st st2 : AllocState) : Prop :=
  ∃ segs : List (((String × String) × Room) × List SeatingAssignment),
    segs.map Prod.fst = ids ∧
    st2.plan = st.plan ++ (segs.map Prod.snd).flatten ∧
    st.pool.Perm (((segs.map Prod.snd).flatten).map studentOf ++ st2.pool) ∧
    st2.idx = st.idx + ((segs.map Prod.snd).flatten).length ∧
    ((segs.map Prod.snd).flatten).length = min cap st.pool.length ∧
    ∀ q ∈ segs, SegProp q

theorem flatten_nil_map {α β : Type} (l : List α) :
    ((l.map (fun _ => ([] : List β))).flatten) = [] := by
  induction l with
  | nil => rfl
  | cons a l ih => simp [ih]

theorem map_fst_pair_nil (ids : List ((String × String) × Room)) :
    ((ids.map (fun q => (q, ([] : List SeatingAssignment)))).map Prod.fst) = ids := by
  induction ids with
  | nil => rfl
  | cons q ids ih => simpa using ih

theorem map_snd_pair_nil (ids : List ((String × String) × Room)) :
    ((ids.map (fun q => (q, ([] : List SeatingAssignment)))).map Prod.snd) =
      ids.map (fun _ => ([] : List SeatingAssignment)) := by
  induction ids with
  | nil => rfl
  | cons q ids ih => simpa using ih

theorem TraverseSpec_zero (cap : Nat) (ids : List ((String × String) × Room))
    (st : AllocState) (h : cap = 0) : TraverseSpec cap ids st st := by
  refine ⟨ids.map (fun q => (q, [])), map_fst_pair_nil ids, ?_, ?_, ?_, ?_, ?_⟩
  · rw [map_snd_pair_nil, flatten_nil_map]; simp
  · rw [map_snd_pair_nil, flatten_nil_map]; simp
  · rw [map_snd_pair_nil, flatten_nil_map]; simp
  · rw [map_snd_pair_nil, flatten_nil_map]; simp [h]
  · intro q hq
    obtain ⟨q0, hq0, rfl⟩ := List.mem_map.mp hq
    exact ⟨by simp, by simp, by simp⟩

theorem TraverseSpec_comp {c1 c2 : Nat} {ids1 ids2 : List ((String × String) × Room)}
    {st st1 st2 : AllocState} (h1 : TraverseSpec c1 ids1 st st1)
    (h2 : TraverseSpec c2 ids2 st1 st2) :
    TraverseSpec (c1 + c2) (ids1 ++ ids2) st st2 := by
  obtain ⟨segs1, hids1, hplan1, hperm1, hidx1, hlen1, hseg1⟩ := h1
  obtain ⟨segs2, hids2, hplan2, hperm2, hidx2, hlen2, hseg2⟩ := h2
  refine ⟨segs1 ++ segs2, ?_, ?_, ?_, ?_, ?_, ?_⟩
  · simp [hids1, hids2]
  · rw [hplan2, hplan1]; simp
  · have hstep := (List.Perm.append_left ((segs1.map Prod.snd).flatten.map studentOf)
      hperm2)
    have := hperm1.trans hstep
    simpa [List.append_assoc] using this
  · rw [hidx2, hidx1]
    simp only [List.map_append, List.flatten_append, List.length_append]
    omega
  · have hlen12 : st.pool.length =
        ((segs1.map Prod.snd).flatten).length + st1.pool.length := by
      have hx := hperm1.length_eq
      rw [List.length_append, List.length_map] at hx
      exact hx
    simp only [List.map_append, List.flatten_append, List.length_append, hlen1, hlen2]
    omega
  · intro q hq
    rcases List.mem_append.mp hq with hq | hq
    · exact hseg1 q hq
    · exact hseg2 q hq

/-- One room's traversal satisfies `TraverseSpec`. -/
theorem allocRoom_spec (T : Nat) (bn fs : String) (r : Room) (st : AllocState)
    (hspb : r.studentsPerBench = 1 ∨ r.studentsPerBench = 2)
    (hcap : st.idx + roomCapacity r ≤ T) :
    TraverseSpec (roomCapacity r) [((bn, fs), r)] st (allocRoom T bn fs r st) := by
  obtain ⟨new, hplan, hperm, hidx, hlen, hmem, hnd⟩ :=
    allocRoomSlots_spec T bn fs r.number r.studentsPerBench (roomCapacity r) 1 st
      hspb
      (fun h2 => by simp only [roomCapacity, h2]; omega)
      hcap
      (fun h1 => by simp only [roomCapacity, h1]; omega)
      (fun h2 => by simp only [roomCapacity, h2]; omega)
  refine ⟨[(((bn, fs), r), new)], by simp, ?_, ?_, ?_, ?_, ?_⟩
  · simpa [allocRoom] using hplan
  · simpa [allocRoom] using hperm
  · simpa [allocRoom] using hidx
  · simpa [allocRoom] using hlen
  · intro q hq
    rcases List.mem_singleton.mp hq with rfl
    refine ⟨?_, by simpa using hnd, ?_⟩
    · intro a ha
      obtain ⟨hb, hf, hc, _⟩ := hmem a ha
      exact ⟨hb, hf, hc⟩
    · rw [hlen]; exact Nat.min_le_left _ _

/-- The rooms loop of one floor satisfies `TraverseSpec`. -/
theorem allocRooms_spec (T : Nat) (bn fs : String) :
    ∀ (rs : List Room) (st : AllocState),
      (∀ r ∈ rs, r.studentsPerBench = 1 ∨ r.studentsPerBench = 2) →
      st.idx + roomsCapacity rs ≤ T →
      TraverseSpec (roomsCapacity rs) (roomsWithIds bn fs rs) st
        (allocRooms T bn fs rs st) := by
  intro rs
  induction rs with
  | nil =>
    intro st _ _
    exact TraverseSpec_zero 0 _ st rfl
  | cons r rs ih =>
    intro st hspb hcap
    by_cases hidx : st.idx ≥ T
    · have hzero : roomsCapacity (r :: rs) = 0 := by omega
      have hres : allocRooms T bn fs (r :: rs) st = st := by
        rw [allocRooms, if_pos hidx]
      rw [hres]
      exact TraverseSpec_zero _ _ st hzero
    · have hres : allocRooms T bn fs (r :: rs) st =
          allocRooms T bn fs rs (allocRoom T bn fs r st) := by
        rw [allocRooms, if_neg hidx]
      have hcapr : st.idx + roomCapacity r ≤ T := by
        have : roomsCapacity (r :: rs) = roomCapacity r + roomsCapacity rs := by
          simp [roomsCapacity]
        omega
      have h1 := allocRoom_spec T bn fs r st (hspb r (by simp)) hcapr
      have hidx1 : (allocRoom T bn fs r st).idx + roomsCapacity rs ≤ T := by
        obtain ⟨segs, _, _, _, hidxe, hlen, _⟩ := h1
        have hle : ((segs.map Prod.snd).flatten).length ≤ roomCapacity r := by
          rw [hlen]; exact Nat.min_le_left _ _
        have : roomsCapacity (r :: rs) = roomCapacity r + roomsCapacity rs := by
          simp [roomsCapacity]
        omega
      have h2 := ih (allocRoom T bn fs r st) (fun x hx => hspb x (by simp [hx])) hidx1
      have hcomp := TraverseSpec_comp h1 h2
      rw [hres]
      have hsum : roomCapacity r + roomsCapacity rs = roomsCapacity (r :: rs) := by
        simp [roomsCapacity]
      have hids : ([((bn, fs), r)] ++ roomsWithIds bn fs rs) =
          roomsWithIds bn fs (r :: rs) := by
        simp [roomsWithIds]
      rw [hsum, hids] at hcomp
      exact hcomp

/-- The floors loop of one block satisfies `TraverseSpec`. -/
theorem allocFloors_spec (T : Nat) (bn : String) :
    ∀ (fl : List Floor) (st : AllocState),
      (∀ f ∈ fl, ∀ r ∈ f.rooms, r.studentsPerBench = 1 ∨ r.studentsPerBench = 2) →
      st.idx + floorsCapacity fl ≤ T →
      TraverseSpec (floorsCapacity fl) (floorsWithIds bn fl) st
        (allocFloors T bn fl st) := by
  intro fl
  induction fl with
  | nil =>
    intro st _ _
    exact TraverseSpec_zero 0 _ st rfl
  | cons f fl ih =>
    intro st hspb hcap
    have hsum : floorsCapacity (f :: fl) = roomsCapacity f.rooms + floorsCapacity fl := by
      simp [floorsCapacity]
    have h1 := allocRooms_spec T bn (toString f.number) f.rooms st
      (hspb f (by simp)) (by omega)
    have hidx1 : (allocRooms T bn (toString f.number) f.rooms st).idx +
        floorsCapacity fl ≤ T := by
      obtain ⟨segs, _, _, _, hidxe, hlen, _⟩ := h1
      have hle : ((segs.map Prod.snd).flatten).length ≤ roomsCapacity f.rooms := by
        rw [hlen]; exact Nat.min_le_left _ _
      omega
    have h2 := ih (allocRooms T bn (toString f.number) f.rooms st)
      (fun x hx => hspb x (by simp [hx])) hidx1
    have hcomp := TraverseSpec_comp h1 h2
    have hres : allocFloors T bn (f :: fl) st =
        allocFloors T bn fl (allocRooms T bn (toString f.number) f.rooms st) := rfl
    rw [hres]
    have hids : (roomsWithIds bn (toString f.number) f.rooms ++ floorsWithIds bn fl) =
        floorsWithIds bn (f :: fl) := by
      simp [floorsWithIds]
    rw [← hsum] at hcomp
    rw [hids] at hcomp
    exact hcomp

/-- The blocks loop satisfies `TraverseSpec`. -/
theorem allocBlocks_spec (T : Nat) :
    ∀ (bs : List Block) (st : AllocState),
      (∀ b ∈ bs, ∀ f ∈ b.floors, ∀ r ∈ f.rooms,
        r.studentsPerBench = 1 ∨ r.studentsPerBench = 2) →
      st.idx + blocksCapacity bs ≤ T →
      TraverseSpec (blocksCapacity bs) (blocksWithIds bs) st (allocBlocks T bs st) := by
  intro bs
  induction bs with
  | nil =>
    intro st _ _
    exact TraverseSpec_zero 0 _ st rfl
  | cons b bs ih =>
    intro st hspb hcap
    have hsum : blocksCapacity (b :: bs) = floorsCapacity b.floors + blocksCapacity bs := by
      simp [blocksCapacity]
    have h1 := allocFloors_spec T b.name b.floors st (hspb b (by simp)) (by omega)
    have hidx1 : (allocFloors T b.name b.floors st).idx + blocksCapacity bs ≤ T := by
      obtain ⟨segs, _, _, _, hidxe, hlen, _⟩ := h1
      have hle : ((segs.map Prod.snd).flatten).length ≤ floorsCapacity b.floors := by
        rw [hlen]; exact Nat.min_le_left _ _
      omega
    have h2 := ih (allocFloors T b.name b.floors st)
      (fun x hx => hspb x (by simp [hx])) hidx1
    have hcomp := TraverseSpec_comp h1 h2
    have hres : allocBlocks T (b :: bs) st =
        allocBlocks T bs (allocFloors T b.name b.floors st) := rfl
    rw [hres]
    have hids : (floorsWithIds b.name b.floors ++ blocksWithIds bs) =
        blocksWithIds (b :: bs) := by
      simp [blocksWithIds]
    rw [← hsum] at hcomp
    rw [hids] at hcomp
    exact hcomp

/-- The capped capacity never exceeds the uncapped `totalCapacity`
computed by the flow, so every room's slot budget fits under the global
cursor ceiling. -/
theorem cappedCapacity_le_totalCapacity (layout : LayoutConfig) :
    cappedCapacity layout ≤ totalCapacity layout := by
  unfold cappedCapacity totalCapacity
  refine List.sum_le_sum ?_
  intro b _
  refine List.sum_le_sum ?_
  intro f _
  refine List.sum_le_sum ?_
  intro r _
  unfold roomCapacity
  exact Nat.mul_le_mul_right _ (Nat.min_le_left _ _)

/-- Master lemma for the whole allocation. -/
theorem allocatePlan_spec (layout : LayoutConfig) (pool : List Student)
    (hspb : ∀ b ∈ layout.blocks, ∀ f ∈ b.floors, ∀ r ∈ f.rooms,
      r.studentsPerBench = 1 ∨ r.studentsPerBench = 2) :
    TraverseSpec (cappedCapacity layout) (layoutRooms layout) ⟨pool, 0, []⟩
      (allocBlocks (totalCapacity layout) layout.blocks ⟨pool, 0, []⟩) := by
  rw [cappedCapacity_eq]
  exact allocBlocks_spec (totalCapacity layout) layout.blocks ⟨pool, 0, []⟩ hspb
    (by simpa [cappedCapacity_eq] using cappedCapacity_le_totalCapacity layout)

/-! ## Flow-level lemmas -/

theorem sortPlan_perm (plan : List SeatingAssignment) : (sortPlan plan).Perm plan :=
  List.perm_insertionSort ticketLE plan

/-- Successful-run constructor: with a non-empty merged roster the flow
returns the full payload. -/
theorem gen_ok_of (shG : List Student → List Student) (shB : List String → List String)
    (files : List CSVFile) (layout : LayoutConfig) (all : List Student)
    (hm : mergeRosters files = Except.ok all) (hne : ¬(all = [])) :
    generateSeatingArrangement shG shB files layout =
      FlowResult.ok (sortPlan (allocatePlan layout (computePool shG shB all)))
        ⟨layout.startDate, layout.endDate, layout.examTimings, true⟩
        (roomBranchSummary (sortPlan (allocatePlan layout (computePool shG shB all))))
        all := by
  unfold generateSeatingArrangement
  rw [hm]
  exact if_neg (by simpa using hne)

/-- Successful-run destructor: inverting an `ok` result of the flow. -/
theorem gen_eq_ok (shG : List Student → List Student) (shB : List String → List String)
    (files : List CSVFile) (layout : LayoutConfig)
    (plan : List SeatingAssignment) (cfg : ExamConfig)
    (summ : List (String × List (String × Nat))) (all : List Student)
    (hok : generateSeatingArrangement shG shB files layout =
      FlowResult.ok plan cfg summ all) :
    mergeRosters files = Except.ok all ∧ ¬(all = []) ∧
    plan = sortPlan (allocatePlan layout (computePool shG shB all)) ∧
    summ = roomBranchSummary plan := by
  unfold generateSeatingArrangement at hok
  cases hm : mergeRosters files with
  | error e => rw [hm] at hok; exact absurd hok (by simp)
  | ok a =>
    rw [hm] at hok
    have hok2 : (if a.isEmpty = true then FlowResult.err emptyRosterMsg
        else FlowResult.ok (sortPlan (allocatePlan layout (computePool shG shB a)))
          ⟨layout.startDate, layout.endDate, layout.examTimings, true⟩
          (roomBranchSummary (sortPlan (allocatePlan layout (computePool shG shB a))))
          a) = FlowResult.ok plan cfg summ all := hok
    by_cases he : a.isEmpty
    · rw [if_pos he] at hok2; exact absurd hok2 (by simp)
    · rw [if_neg he] at hok2
      simp only [FlowResult.ok.injEq] at hok2
      obtain ⟨hplan, _, hsumm, hall⟩ := hok2
      subst hall
      refine ⟨rfl, by simpa using he, hplan.symm, ?_⟩
      rw [← hplan]
      exact hsumm.symm

/-- Concrete fixtures shared by the witnesses below. -/
def studC1 : Student := ⟨"Dan", "HT04", "C", "444"⟩

def studC2 : Student := ⟨"Eve", "HT05", "C", "555"⟩

def studDave : Student := ⟨"Dave", "HT99", "CSE", "999"⟩

def file7 : CSVFile :=
  ⟨["Name", "HallTicket", "Branch", "Phone"],
   [[("Name", "Alice"), ("HallTicket", "HT01"), ("Branch", "A"), ("Phone", "111")],
    [("Name", "Bob"), ("HallTicket", "HT02"), ("Branch", "A"), ("Phone", "222")],
    [("Name", "Carol"), ("HallTicket", "HT03"), ("Branch", "B"), ("Phone", "333")]]⟩

def file5 : CSVFile :=
  ⟨["Name", "HallTicket", "Branch", "Phone"],
   [[("Name", "Alice"), ("HallTicket", "HT01"), ("Branch", "A"), ("Phone", "111")],
    [("Name", "Bob"), ("HallTicket", "HT02"), ("Branch", "A"), ("Phone", "222")],
    [("Name", "Carol"), ("HallTicket", "HT03"), ("Branch", "B"), ("Phone", "333")],
    [("Name", "Dan"), ("HallTicket", "HT04"), ("Branch", "C"), ("Phone", "444")],
    [("Name", "Eve"), ("HallTicket", "HT05"), ("Branch", "C"), ("Phone", "555")]]⟩

def fileGood : CSVFile :=
  ⟨["Name", "HallTicket", "Branch", "Phone"],
   [[("Name", "Dave"), ("HallTicket", "HT99"), ("Branch", "CSE"), ("Phone", "999")]]⟩

def fileEmptyRows : CSVFile := ⟨["Name", "HallTicket", "Branch", "Phone"], []⟩

def fileBad : CSVFile := ⟨["Foo"], []⟩

/-- One block, one floor, one room with 2 benches of 2 seats (capacity 4). -/
def layout7 : LayoutConfig :=
  ⟨[⟨"B1", [⟨1, [⟨"R1", 2, 2⟩]⟩]⟩], "2025-01-01", "2025-01-02", ["09:00-12:00"]⟩

/-- C1: for every roster whose size is at most the layout capacity (the
sum of `min(benches, 45) * studentsPerBench` effective room capacities,
the spec's notion of total capacity) and every shuffle outcome, the
returned seating plan contains every parsed student exactly once — the
multiset of students in the plan equals the merged roster. -/
theorem claim1_everyStudentSeatedOnce (shG : List Student → List Student)
    (shB : List String → List String) (files : List CSVFile) (layout : LayoutConfig)
    (plan : List SeatingAssignment) (cfg : ExamConfig)
    (summ : List (String × List (String × Nat))) (all : List Student)
    (hG : ∀ l, (shG l).Perm l) (hB : ∀ l, (shB l).Perm l)
    (hspb : ∀ b ∈ layout.blocks, ∀ f ∈ b.floors, ∀ r ∈ f.rooms,
      r.studentsPerBench = 1 ∨ r.studentsPerBench = 2)
    (hok : generateSeatingArrangement shG shB files layout =
      FlowResult.ok plan cfg summ all)
    (hcap : all.length ≤ cappedCapacity layout) :
    (plan.map studentOf).Perm all := by
  obtain ⟨hm, hne, hplan, hsumm⟩ := gen_eq_ok shG shB files layout plan cfg summ all hok
  have hpool := computePool_perm shG shB hG hB all
  obtain ⟨segs, hids, hplane, hperm, hidxe, hlen, hsegs⟩ :=
    allocatePlan_spec layout (computePool shG shB all) hspb
  have hpoolen : (computePool shG shB all).length = all.length := hpool.length_eq
  have hraw : allocatePlan layout (computePool shG shB all) =
      ((segs.map Prod.snd).flatten) := by
    unfold allocatePlan
    rw [hplane]
    simp
  have hlenflat : ((segs.map Prod.snd).flatten).length = all.length := by
    rw [hlen]
    simp only [hpoolen]
    omega
  have hlensplit : (computePool shG shB all).length =
      ((segs.map Prod.snd).flatten).length +
        (allocBlocks (totalCapacity layout) layout.blocks
          ⟨computePool shG shB all, 0, []⟩).pool.length := by
    have hx := hperm.length_eq
    rw [List.length_append, List.length_map] at hx
    exact hx
  have hfin : (allocBlocks (totalCapacity layout) layout.blocks
      ⟨computePool shG shB all, 0, []⟩).pool = [] := by
    have : (allocBlocks (totalCapacity layout) layout.blocks
        ⟨computePool shG shB all, 0, []⟩).pool.length = 0 := by omega
    exact List.eq_nil_of_length_eq_zero this
  rw [hfin, List.append_nil] at hperm
  have hflatmap : (((segs.map Prod.snd).flatten).map studentOf).Perm all :=
    hperm.symm.trans hpool
  rw [hplan]
  refine ((sortPlan_perm _).map studentOf).trans ?_
  rw [hraw]
  exact hflatmap

/-- Witness for C1: a three-student roster in a capacity-4 layout, with
identity shuffles; the plan's student multiset is exactly the roster. -/
theorem claim1_everyStudentSeatedOnce_witness :
    ((FlowResult.planOf (generateSeatingArrangement id id [file7] layout7)).map
      studentOf).Perm [studA1, studA2, studB1] :=
  claim1_everyStudentSeatedOnce id id [file7] layout7 _ _ _ _
    (fun l => List.Perm.refl l) (fun l => List.Perm.refl l)
    (by decide) rfl (by decide)

/-! ## Distinct seats and room occupancy bounds -/

theorem seatKey_symm {a b : SeatingAssignment}
    (h : (a.block, a.floor, a.classroom, a.benchNumber) ≠
      (b.block, b.floor, b.classroom, b.benchNumber)) :
    (b.block, b.floor, b.classroom, b.benchNumber) ≠
      (a.block, a.floor, a.classroom, a.benchNumber) :=
  fun he => h he.symm

/-- C4: under distinct room identifiers, for every roster within
capacity and every shuffle outcome no two plan entries share the
(block, floor, classroom, benchNumber) quadruple. -/
theorem claim4_noSeatShared (shG : List Student → List Student)
    (shB : List String → List String) (files : List CSVFile) (layout : LayoutConfig)
    (plan : List SeatingAssignment) (cfg : ExamConfig)
    (summ : List (String × List (String × Nat))) (all : List Student)
    (_hG : ∀ l, (shG l).Perm l) (_hB : ∀ l, (shB l).Perm l)
    (hspb : ∀ b ∈ layout.blocks, ∀ f ∈ b.floors, ∀ r ∈ f.rooms,
      r.studentsPerBench = 1 ∨ r.studentsPerBench = 2)
    (hids : (roomIds layout).Nodup)
    (hok : generateSeatingArrangement shG shB files layout =
      FlowResult.ok plan cfg summ all)
    (_hcap : all.length ≤ cappedCapacity layout) :
    plan.Pairwise (fun a b => (a.block, a.floor, a.classroom, a.benchNumber) ≠
      (b.block, b.floor, b.classroom, b.benchNumber)) := by
  obtain ⟨hm, hne, hplan, hsumm⟩ := gen_eq_ok shG shB files layout plan cfg summ all hok
  obtain ⟨segs, hidseq, hplane, hperm, hidxe, hlen, hsegs⟩ :=
    allocatePlan_spec layout (computePool shG shB all) hspb
  have hraw : allocatePlan layout (computePool shG shB all) =
      ((segs.map Prod.snd).flatten) := by
    unfold allocatePlan
    rw [hplane]
    simp
  have hpair : ((segs.map Prod.snd).flatten).Pairwise
      (fun a b => (a.block, a.floor, a.classroom, a.benchNumber) ≠
        (b.block, b.floor, b.classroom, b.benchNumber)) := by
    rw [List.pairwise_flatten]
    constructor
    · intro l hl
      obtain ⟨q, hq, rfl⟩ := List.mem_map.mp hl
      obtain ⟨hfields, hnd, _⟩ := hsegs q hq
      have hp : q.2.Pairwise (fun a b => a.benchNumber ≠ b.benchNumber) :=
        List.pairwise_map.mp hnd
      refine hp.imp ?_
      intro a b hab he
      apply hab
      have := congrArg (fun x => x.2.2.2) he
      simpa using this
    · have hidnod : (segs.map (fun q => roomIdOf q.1)).Nodup := by
        have : segs.map (fun q => roomIdOf q.1) = (segs.map Prod.fst).map roomIdOf := by
          simp
        rw [this, hidseq]
        exact hids
      have hidpair : segs.Pairwise (fun q1 q2 => roomIdOf q1.1 ≠ roomIdOf q2.1) :=
        List.pairwise_map.mp hidnod
      rw [List.pairwise_map]
      refine List.Pairwise.imp_of_mem ?_ hidpair
      intro q1 q2 hq1 hq2 hne12
      intro x hx y hy he
      apply hne12
      obtain ⟨hf1, _, _⟩ := hsegs q1 hq1
      obtain ⟨hf2, _, _⟩ := hsegs q2 hq2
      obtain ⟨hb1, hfl1, hc1⟩ := hf1 x hx
      obtain ⟨hb2, hfl2, hc2⟩ := hf2 y hy
      have h1 : x.block = y.block := congrArg (fun p => p.1) he
      have h2 : x.floor = y.floor := by
        have := congrArg (fun p => p.2.1) he
        simpa using this
      have h3 : x.classroom = y.classroom := by
        have := congrArg (fun p => p.2.2.1) he
        simpa using this
      unfold roomIdOf
      rw [← hb1, ← hfl1, ← hc1, ← hb2, ← hfl2, ← hc2, h1, h2, h3]
  rw [hplan, hraw]
  exact ((List.Perm.pairwise_iff (fun h => seatKey_symm h)
    (sortPlan_perm ((segs.map Prod.snd).flatten))).mpr hpair)

/-- Witness for C4 at the concrete three-student scenario. -/
theorem claim4_noSeatShared_witness :
    (FlowResult.planOf (generateSeatingArrangement id id [file7] layout7)).Pairwise
      (fun a b => (a.block, a.floor, a.classroom, a.benchNumber) ≠
        (b.block, b.floor, b.classroom, b.benchNumber)) :=
  claim4_noSeatShared id id [file7] layout7 _ _ _ _
    (fun l => List.Perm.refl l) (fun l => List.Perm.refl l)
    (by decide) (by decide) rfl (by decide)

theorem filter_flatten (p : SeatingAssignment → Bool) :
    ∀ L : List (List SeatingAssignment),
      (L.flatten.filter p) = (L.map (List.filter p)).flatten := by
  intro L
  induction L with
  | nil => rfl
  | cons l L ih => simp [List.filter_append, ih]

theorem mem_layoutRooms (layout : LayoutConfig) (b : Block) (hb : b ∈ layout.blocks)
    (f : Floor) (hf : f ∈ b.floors) (r : Room) (hr : r ∈ f.rooms) :
    ((b.name, toString f.number), r) ∈ layoutRooms layout := by
  unfold layoutRooms blocksWithIds
  rw [List.mem_flatten]
  refine ⟨floorsWithIds b.name b.floors, List.mem_map_of_mem _ hb, ?_⟩
  unfold floorsWithIds
  rw [List.mem_flatten]
  refine ⟨roomsWithIds b.name (toString f.number) f.rooms, List.mem_map_of_mem _ hf, ?_⟩
  unfold roomsWithIds
  exact List.mem_map_of_mem _ hr

theorem filter_seg_nil (t1 t2 t3 : String)
    (q : ((String × String) × Room) × List SeatingAssignment)
    (hseg : SegProp q) (hne : roomIdOf q.1 ≠ (t1, t2, t3)) :
    q.2.filter (fun a => decide (a.block = t1 ∧ a.floor = t2 ∧ a.classroom = t3)) = [] := by
  rw [List.filter_eq_nil_iff]
  intro a ha hpa
  obtain ⟨hb, hf, hc⟩ := hseg.1 a ha
  apply hne
  have := of_decide_eq_true hpa
  obtain ⟨e1, e2, e3⟩ := this
  unfold roomIdOf
  rw [← e1, ← e2, ← e3, hb, hf, hc]

theorem count_segs_le (t1 t2 t3 : String) (cap : Nat) :
    ∀ segs : List (((String × String) × Room) × List SeatingAssignment),
      (∀ q ∈ segs, SegProp q) →
      (∀ q ∈ segs, roomIdOf q.1 = (t1, t2, t3) → roomCapacity q.1.2 ≤ cap) →
      ((segs.map (fun q => roomIdOf q.1)).Nodup) →
      ((((segs.map Prod.snd).flatten).filter
        (fun a => decide (a.block = t1 ∧ a.floor = t2 ∧ a.classroom = t3))).length) ≤
        cap := by
  intro segs
  induction segs with
  | nil => intro _ _ _; simp
  | cons q rest ih =>
    intro hsegs hcaps hnd
    simp only [List.map_cons, List.flatten_cons, List.filter_append, List.length_append]
    by_cases hid : roomIdOf q.1 = (t1, t2, t3)
    · have hlen1 : (q.2.filter (fun a => decide (a.block = t1 ∧ a.floor = t2 ∧
          a.classroom = t3))).length ≤ cap := by
        calc (q.2.filter _).length ≤ q.2.length := List.length_filter_le _ _
        _ ≤ roomCapacity q.1.2 := (hsegs q (by simp)).2.2
        _ ≤ cap := hcaps q (by simp) hid
      have hrest0 : (((rest.map Prod.snd).flatten).filter
          (fun a => decide (a.block = t1 ∧ a.floor = t2 ∧ a.classroom = t3))) = [] := by
        rw [filter_flatten]
        rw [List.flatten_eq_nil_iff]
        intro l hl
        rw [List.map_map] at hl
        obtain ⟨q2, hq2, rfl⟩ := List.mem_map.mp hl
        refine filter_seg_nil t1 t2 t3 q2 (hsegs q2 (by simp [hq2])) ?_
        intro hid2
        have hq1mem : roomIdOf q.1 ∉ rest.map (fun q => roomIdOf q.1) :=
          (List.nodup_cons.mp hnd).1
        exact hq1mem (hid ▸ hid2 ▸ List.mem_map_of_mem _ hq2)
      rw [hrest0]
      simpa using hlen1
    · have h0 : (q.2.filter (fun a => decide (a.block = t1 ∧ a.floor = t2 ∧
          a.classroom = t3))) = [] :=
        filter_seg_nil t1 t2 t3 q (hsegs q (by simp)) hid
      rw [h0]
      have := ih (fun x hx => hsegs x (by simp [hx]))
        (fun x hx he => hcaps x (by simp [hx]) he) (List.nodup_cons.mp hnd).2
      simpa using this

/-- C5: under distinct room identifiers, no room ever receives more than
`min(benches, 45) * studentsPerBench` students. -/
theorem claim5_roomCapacityRespected (shG : List Student → List Student)
    (shB : List String → List String) (files : List CSVFile) (layout : LayoutConfig)
    (plan : List SeatingAssignment) (cfg : ExamConfig)
    (summ : List (String × List (String × Nat))) (all : List Student)
    (_hG : ∀ l, (shG l).Perm l) (_hB : ∀ l, (shB l).Perm l)
    (hspb : ∀ b ∈ layout.blocks, ∀ f ∈ b.floors, ∀ r ∈ f.rooms,
      r.studentsPerBench = 1 ∨ r.studentsPerBench = 2)
    (hids : (roomIds layout).Nodup)
    (hok : generateSeatingArrangement shG shB files layout =
      FlowResult.ok plan cfg summ all) :
    ∀ b ∈ layout.blocks, ∀ f ∈ b.floors, ∀ r ∈ f.rooms,
      ((plan.filter (fun a => decide (a.block = b.name ∧ a.floor = toString f.number ∧
        a.classroom = r.number))).length) ≤ min r.benches 45 * r.studentsPerBench := by
  intro b hb f hf r hr
  obtain ⟨hm, hne, hplan, hsumm⟩ := gen_eq_ok shG shB files layout plan cfg summ all hok
  obtain ⟨segs, hidseq, hplane, hperm, hidxe, hlen, hsegs⟩ :=
    allocatePlan_spec layout (computePool shG shB all) hspb
  have hraw : allocatePlan layout (computePool shG shB all) =
      ((segs.map Prod.snd).flatten) := by
    unfold allocatePlan
    rw [hplane]
    simp
  have hpermf := List.Perm.filter
    (fun a => decide (a.block = b.name ∧ a.floor = toString f.number ∧
      a.classroom = r.number))
    (sortPlan_perm (allocatePlan layout (computePool shG shB all)))
  rw [hplan]
  rw [hpermf.length_eq, hraw]
  have hmemr := mem_layoutRooms layout b hb f hf r hr
  refine count_segs_le b.name (toString f.number) r.number (roomCapacity r) segs hsegs
    ?_ ?_
  · intro q hq hqid
    have hq1 : q.1 ∈ layoutRooms layout := by
      rw [← hidseq]
      exact List.mem_map_of_mem _ hq
    have heq : q.1 = ((b.name, toString f.number), r) := by
      refine List.inj_on_of_nodup_map hids hq1 hmemr ?_
      rw [hqid]
      rfl
    rw [heq]
  · have : segs.map (fun q => roomIdOf q.1) = (segs.map Prod.fst).map roomIdOf := by
      simp
    rw [this, hidseq]
    exact hids

/-- Witness for C5 at the concrete three-student scenario and its single
room. -/
theorem claim5_roomCapacityRespected_witness :
    (((FlowResult.planOf (generateSeatingArrangement id id [file7] layout7)).filter
      (fun a => decide (a.block = "B1" ∧ a.floor = toString (1 : Nat) ∧
        a.classroom = "R1"))).length) ≤ min 2 45 * 2 :=
  claim5_roomCapacityRespected id id [file7] layout7 _ _ _ _
    (fun l => List.Perm.refl l) (fun l => List.Perm.refl l)
    (by decide) (by decide) rfl
    ⟨"B1", [⟨1, [⟨"R1", 2, 2⟩]⟩]⟩ (by decide)
    ⟨1, [⟨"R1", 2, 2⟩]⟩ (by decide)
    ⟨"R1", 2, 2⟩ (by decide)

/-! ## Capacity overflow (C6) -/

theorem nat_le_sum_of_mem : ∀ (l : List Nat) (a : Nat), a ∈ l → a ≤ l.sum := by
  intro l
  induction l with
  | nil => intro a ha; simp at ha
  | cons x l ih =>
    intro a ha
    rcases List.mem_cons.mp ha with rfl | ha2
    · simp
    · have := ih a ha2
      simp
      omega

/-- Every single room's uncapped seat count is bounded by `totalCapacity`. -/
theorem room_term_le_total (layout : LayoutConfig) (b : Block) (hb : b ∈ layout.blocks)
    (f : Floor) (hf : f ∈ b.floors) (r : Room) (hr : r ∈ f.rooms) :
    r.benches * r.studentsPerBench ≤ totalCapacity layout := by
  unfold totalCapacity
  have h1 : r.benches * r.studentsPerBench ≤
      ((f.rooms.map (fun r => r.benches * r.studentsPerBench)).sum) :=
    nat_le_sum_of_mem _ _ (List.mem_map_of_mem _ hr)
  have h2 : ((f.rooms.map (fun r => r.benches * r.studentsPerBench)).sum) ≤
      ((b.floors.map (fun f =>
        ((f.rooms.map (fun r => r.benches * r.studentsPerBench)).sum))).sum) :=
    nat_le_sum_of_mem _ _ (List.mem_map_of_mem _ hf)
  have h3 : ((b.floors.map (fun f =>
      ((f.rooms.map (fun r => r.benches * r.studentsPerBench)).sum))).sum) ≤
      ((layout.blocks.map (fun b =>
        ((b.floors.map (fun f =>
          ((f.rooms.map (fun r => r.benches * r.studentsPerBench)).sum))).sum))).sum) :=
    nat_le_sum_of_mem _ _ (List.mem_map_of_mem _ hb)
  omega

/-- When the uncapped capacity is small the 45-bench ceiling never bites,
so the capped and uncapped capacities coincide. -/
theorem cappedCapacity_eq_totalCapacity (layout : LayoutConfig)
    (hspb : ∀ b ∈ layout.blocks, ∀ f ∈ b.floors, ∀ r ∈ f.rooms,
      r.studentsPerBench = 1 ∨ r.studentsPerBench = 2)
    (hsmall : totalCapacity layout ≤ 45) :
    cappedCapacity layout = totalCapacity layout := by
  unfold cappedCapacity totalCapacity
  refine congrArg List.sum (List.map_congr_left ?_)
  intro b hb
  refine congrArg List.sum (List.map_congr_left ?_)
  intro f hf
  refine congrArg List.sum (List.map_congr_left ?_)
  intro r hr
  unfold roomCapacity
  have hterm := room_term_le_total layout b hb f hf r hr
  have hspb1 : 1 ≤ r.studentsPerBench := by
    rcases hspb b hb f hf r hr with h | h
    · omega
    · omega
  have hble : r.benches ≤ 45 := by
    have : r.benches ≤ r.benches * r.studentsPerBench := Nat.le_mul_of_pos_right _ hspb1
    omega
  rw [Nat.min_eq_left hble]

/-- C6: with a parsed roster of 5 students and a layout of total capacity
4, the flow succeeds (no error), seats exactly 4 students, leaves exactly
1 student unseated, and the room-branch summary counts sum to 4. -/
theorem claim6_overflowSeatsFour (shG : List Student → List Student)
    (shB : List String → List String) (files : List CSVFile) (layout : LayoutConfig)
    (all : List Student)
    (hG : ∀ l, (shG l).Perm l) (hB : ∀ l, (shB l).Perm l)
    (hspb : ∀ b ∈ layout.blocks, ∀ f ∈ b.floors, ∀ r ∈ f.rooms,
      r.studentsPerBench = 1 ∨ r.studentsPerBench = 2)
    (hm : mergeRosters files = Except.ok all) (hlen : all.length = 5)
    (hT : totalCapacity layout = 4) :
    ∃ plan cfg summ,
      generateSeatingArrangement shG shB files layout =
        FlowResult.ok plan cfg summ all ∧
      plan.length = 4 ∧ summaryTotal summ = 4 ∧
      ∃ s : Student, all.Perm (plan.map studentOf ++ [s]) := by
  have hne : ¬(all = []) := by
    intro h
    rw [h] at hlen
    simp at hlen
  have hcapeq : cappedCapacity layout = 4 := by
    rw [cappedCapacity_eq_totalCapacity layout hspb (by omega)]
    exact hT
  have hgen := gen_ok_of shG shB files layout all hm hne
  obtain ⟨segs, hidseq, hplane, hperm, hidxe, hlen2, hsegs⟩ :=
    allocatePlan_spec layout (computePool shG shB all) hspb
  have hpool := computePool_perm shG shB hG hB all
  have hpoolen : (computePool shG shB all).length = all.length := hpool.length_eq
  have hraw : allocatePlan layout (computePool shG shB all) =
      ((segs.map Prod.snd).flatten) := by
    unfold allocatePlan
    rw [hplane]
    simp
  have hflatlen : ((segs.map Prod.snd).flatten).length = 4 := by
    rw [hlen2, hcapeq, hpoolen, hlen]
    rfl
  have hlensplit : (computePool shG shB all).length =
      ((segs.map Prod.snd).flatten).length +
        (allocBlocks (totalCapacity layout) layout.blocks
          ⟨computePool shG shB all, 0, []⟩).pool.length := by
    have hx := hperm.length_eq
    rw [List.length_append, List.length_map] at hx
    exact hx
  have hfinlen : (allocBlocks (totalCapacity layout) layout.blocks
      ⟨computePool shG shB all, 0, []⟩).pool.length = 1 := by
    rw [hpoolen, hlen, hflatlen] at hlensplit
    omega
  obtain ⟨s, hs⟩ := List.length_eq_one.mp hfinlen
  refine ⟨_, _, _, hgen, ?_, ?_, ⟨s, ?_⟩⟩
  · rw [(sortPlan_perm (allocatePlan layout (computePool shG shB all))).length_eq, hraw]
    exact hflatlen
  · rw [roomBranchSummary_total,
      (sortPlan_perm (allocatePlan layout (computePool shG shB all))).length_eq, hraw]
    exact hflatlen
  · rw [hs] at hperm
    have hplanmap : ((sortPlan (allocatePlan layout (computePool shG shB all))).map
        studentOf).Perm (((segs.map Prod.snd).flatten).map studentOf) := by
      refine List.Perm.map studentOf ?_
      rw [← hraw]
      exact sortPlan_perm _
    refine (hpool.symm.trans hperm).trans ?_
    exact List.Perm.append_right [s] hplanmap.symm

/-- Witness for C6: the five-student file in the capacity-4 layout with
identity shuffles. -/
theorem claim6_overflowSeatsFour_witness :
    ∃ plan cfg summ,
      generateSeatingArrangement id id [file5] layout7 =
        FlowResult.ok plan cfg summ [studA1, studA2, studB1, studC1, studC2] ∧
      plan.length = 4 ∧ summaryTotal summ = 4 ∧
      ∃ s : Student,
        ([studA1, studA2, studB1, studC1, studC2] : List Student).Perm
          (plan.map studentOf ++ [s]) :=
  claim6_overflowSeatsFour id id [file5] layout7 _
    (fun l => List.Perm.refl l) (fun l => List.Perm.refl l)
    (by decide) rfl (by decide) (by decide)

/-! ## The A-A-B pairing scenario (C7) -/

theorem perm_pair_cases {α : Type} (l : List α) (a b : α) (h : l.Perm [a, b]) :
    l = [a, b] ∨ l = [b, a] := by
  have hlen : l.length = 2 := by simpa using h.length_eq
  match l, hlen with
  | [x, y], _ =>
    have hx : x ∈ ([a, b] : List α) := h.subset (by simp)
    rcases List.mem_cons.mp hx with rfl | hx2
    · left
      have h2 : [y].Perm [b] := h.cons_inv
      rw [List.perm_singleton.mp h2]
    · have hxb : x = b := List.mem_singleton.mp hx2
      right
      have hswap : ([a, b] : List α).Perm [b, a] := List.Perm.swap b a []
      have h2 : [y].Perm [a] := by
        rw [hxb] at h
        exact (h.trans hswap).cons_inv
      rw [hxb, List.perm_singleton.mp h2]

/-- The branch grouping of the concrete A-A-B roster. -/
theorem groupByBranch_file7 :
    groupByBranch [studA1, studA2, studB1] =
      [("A", [studA1, studA2]), ("B", [studB1])] := by decide

theorem computePool_file7 (shG : List Student → List Student)
    (shB : List String → List String) :
    computePool shG shB [studA1, studA2, studB1] =
      (shB ["A", "B"]).flatMap
        (fun b => lookupGroup b [("A", shG [studA1, studA2]), ("B", shG [studB1])]) := by
  unfold computePool
  rw [groupByBranch_file7]
  rfl

/-- C7: for the roster with branches A, A, B in one room of two two-seat
benches, under every shuffle outcome: all three students are seated,
bench 1 pairs the B student with one A student on its L and R seats, the
remaining A student sits at bench 2L, and seat 2R stays empty. -/
theorem claim7_crossBranchScenario (shG : List Student → List Student)
    (shB : List String → List String)
    (hG : ∀ l, (shG l).Perm l) (hB : ∀ l, (shB l).Perm l) :
    ∃ plan cfg summ all,
      generateSeatingArrangement shG shB [file7] layout7 =
        FlowResult.ok plan cfg summ all ∧
      (plan.map studentOf).Perm [studA1, studA2, studB1] ∧
      (∃ x ∈ plan, x.benchNumber = "1L" ∧ ∃ y ∈ plan, y.benchNumber = "1R" ∧
        ((x.branch = "B" ∧ y.branch = "A") ∨ (x.branch = "A" ∧ y.branch = "B"))) ∧
      (∃ z ∈ plan, z.benchNumber = "2L" ∧ z.branch = "A") ∧
      (∀ w ∈ plan, w.benchNumber ≠ "2R") := by
  have hm : mergeRosters [file7] = Except.ok [studA1, studA2, studB1] := rfl
  have hgen := gen_ok_of shG shB [file7] layout7 [studA1, studA2, studB1] hm (by decide)
  have hgb : shG [studB1] = [studB1] := List.perm_singleton.mp (hG [studB1])
  have hga := perm_pair_cases (shG [studA1, studA2]) studA1 studA2 (hG [studA1, studA2])
  have hbb := perm_pair_cases (shB ["A", "B"]) "A" "B" (hB ["A", "B"])
  rw [computePool_file7 shG shB] at hgen
  rcases hbb with hbb | hbb <;> rcases hga with hga | hga <;>
    rw [hbb, hga, hgb] at hgen <;>
    exact ⟨_, _, _, _, hgen, by decide, by decide, by decide, by decide⟩

/-- Witness for C7 with identity shuffles. -/
theorem claim7_crossBranchScenario_witness :
    ∃ plan cfg summ all,
      generateSeatingArrangement id id [file7] layout7 =
        FlowResult.ok plan cfg summ all ∧
      (plan.map studentOf).Perm [studA1, studA2, studB1] ∧
      (∃ x ∈ plan, x.benchNumber = "1L" ∧ ∃ y ∈ plan, y.benchNumber = "1R" ∧
        ((x.branch = "B" ∧ y.branch = "A") ∨ (x.branch = "A" ∧ y.branch = "B"))) ∧
      (∃ z ∈ plan, z.benchNumber = "2L" ∧ z.branch = "A") ∧
      (∀ w ∈ plan, w.benchNumber ≠ "2R") :=
  claim7_crossBranchScenario id id (fun l => List.Perm.refl l) (fun l => List.Perm.refl l)

/-! ## Error handling (C8, C9) and the roster frame property (C10) -/

/-- C8 counterexample: a CSV file that survives parsing with zero
students does not fail the batch when another file parses successfully —
the flow returns a full result, not an error.  (Only the whole-roster
emptiness is checked at flow line 174; the CSV reader itself never
rejects an empty row set.) -/
theorem claim8_cex_emptyFileTolerated :
    (generateSeatingArrangement id id [fileEmptyRows, fileGood] layout7).isErr = false := by
  decide

/-- C8 amended: when every file parses without raising, the invocation
fails with the empty-result error exactly when the *merged* roster is
empty; a single zero-student file among files that contribute students
does not abort the batch. -/
theorem claim8_amended_emptyMergeFails (shG : List Student → List Student)
    (shB : List String → List String) (files : List CSVFile) (layout : LayoutConfig)
    (all : List Student) (hm : mergeRosters files = Except.ok all) :
    (generateSeatingArrangement shG shB files layout).isErr = true ↔ all = [] := by
  unfold generateSeatingArrangement
  rw [hm]
  by_cases he : all.isEmpty
  · have hnil : all = [] := by simpa using he
    have hred : (match Except.ok all with
        | Except.error e => FlowResult.err e
        | Except.ok allStudents =>
          if allStudents.isEmpty = true then FlowResult.err emptyRosterMsg
          else FlowResult.ok (sortPlan (allocatePlan layout (computePool shG shB allStudents)))
            ⟨layout.startDate, layout.endDate, layout.examTimings, true⟩
            (roomBranchSummary (sortPlan (allocatePlan layout
              (computePool shG shB allStudents)))) allStudents) =
        FlowResult.err emptyRosterMsg := if_pos he
    rw [hred]
    simp [FlowResult.isErr, hnil]
  · have hne : ¬(all = []) := by simpa using he
    have hred : (match Except.ok all with
        | Except.error e => FlowResult.err e
        | Except.ok allStudents =>
          if allStudents.isEmpty = true then FlowResult.err emptyRosterMsg
          else FlowResult.ok (sortPlan (allocatePlan layout (computePool shG shB allStudents)))
            ⟨layout.startDate, layout.endDate, layout.examTimings, true⟩
            (roomBranchSummary (sortPlan (allocatePlan layout
              (computePool shG shB allStudents)))) allStudents) =
        FlowResult.ok (sortPlan (allocatePlan layout (computePool shG shB all)))
          ⟨layout.startDate, layout.endDate, layout.examTimings, true⟩
          (roomBranchSummary (sortPlan (allocatePlan layout (computePool shG shB all))))
          all := if_neg he
    rw [hred]
    simp [FlowResult.isErr, hne]

/-- Witness for the amended C8: a batch consisting only of the
zero-student file has an empty merged roster and fails. -/
theorem claim8_amended_emptyMergeFails_witness :
    (generateSeatingArrangement id id [fileEmptyRows] layout7).isErr = true :=
  (claim8_amended_emptyMergeFails id id [fileEmptyRows] layout7 [] rfl).mpr rfl

theorem mergeRosters_error_of :
    ∀ files : List CSVFile,
      (∃ f ∈ files, ∀ l, parseStudentsFromCSV f ≠ Except.ok l) →
      ∃ e, mergeRosters files = Except.error e := by
  intro files
  induction files with
  | nil => rintro ⟨f, hf, _⟩; simp at hf
  | cons f fs ih =>
    rintro ⟨g, hg, hgbad⟩
    rcases List.mem_cons.mp hg with rfl | hg2
    · cases hp : parseStudentsFromCSV g with
      | error e => exact ⟨e, by simp [mergeRosters, hp]⟩
      | ok l => exact absurd hp (hgbad l)
    · cases hp : parseStudentsFromCSV f with
      | error e => exact ⟨e, by simp [mergeRosters, hp]⟩
      | ok s =>
        obtain ⟨e, he⟩ := ih ⟨g, hg2, hgbad⟩
        exact ⟨e, by simp [mergeRosters, hp, he]⟩

/-- C9: if any input file fails to parse, the invocation returns the bare
error shape — no seating plan, exam configuration, or summary is
produced, regardless of how many earlier files parsed successfully. -/
theorem claim9_parseErrorAbortsBatch (shG : List Student → List Student)
    (shB : List String → List String) (files : List CSVFile) (layout : LayoutConfig)
    (h : ∃ f ∈ files, ∀ l, parseStudentsFromCSV f ≠ Except.ok l) :
    ∃ msg, generateSeatingArrangement shG shB files layout = FlowResult.err msg := by
  obtain ⟨e, he⟩ := mergeRosters_error_of files h
  refine ⟨e, ?_⟩
  unfold generateSeatingArrangement
  rw [he]

/-- Witness for C9: a good file followed by a file with no resolvable
columns; the whole batch returns an error. -/
theorem claim9_parseErrorAbortsBatch_witness :
    ∃ msg, generateSeatingArrangement id id [fileGood, fileBad] layout7 =
      FlowResult.err msg := by
  refine claim9_parseErrorAbortsBatch id id [fileGood, fileBad] layout7 ⟨fileBad, ?_, ?_⟩
  · simp
  · intro l hl
    have hpb : parseStudentsFromCSV fileBad = Except.error missingNameMsg := rfl
    rw [hpb] at hl
    exact Except.noConfusion hl

theorem mergeRosters_ok_decomp :
    ∀ (files : List CSVFile) (all : List Student),
      mergeRosters files = Except.ok all →
      ∃ ls : List (List Student),
        files.map parseStudentsFromCSV = ls.map Except.ok ∧ all = ls.flatten := by
  intro files
  induction files with
  | nil =>
    intro all h
    refine ⟨[], by simp, ?_⟩
    simp [mergeRosters] at h
    simp [← h]
  | cons f fs ih =>
    intro all h
    cases hp : parseStudentsFromCSV f with
    | error e => rw [mergeRosters, hp] at h; exact absurd h (by simp)
    | ok s =>
      rw [mergeRosters, hp] at h
      cases hrest : mergeRosters fs with
      | error e => rw [hrest] at h; exact absurd h (by simp)
      | ok rest =>
        rw [hrest] at h
        simp only [Except.ok.injEq] at h
        obtain ⟨ls, hmap, hflat⟩ := ih rest hrest
        refine ⟨s :: ls, ?_, ?_⟩
        · simp [hp, hmap]
        · rw [← h, hflat]
          simp

/-- C10: on every successful invocation, the returned `allStudents` is
exactly the concatenation of the per-file parsed student lists in file
order (the shuffle and allocation steps never reorder, drop, or modify
it). -/
theorem claim10_allStudentsIsConcat (shG : List Student → List Student)
    (shB : List String → List String) (files : List CSVFile) (layout : LayoutConfig)
    (plan : List SeatingAssignment) (cfg : ExamConfig)
    (summ : List (String × List (String × Nat))) (all : List Student)
    (hok : generateSeatingArrangement shG shB files layout =
      FlowResult.ok plan cfg summ all) :
    ∃ ls : List (List Student),
      files.map parseStudentsFromCSV = ls.map Except.ok ∧ all = ls.flatten := by
  obtain ⟨hm, _, _, _⟩ := gen_eq_ok shG shB files layout plan cfg summ all hok
  exact mergeRosters_ok_decomp files all hm

/-- Witness for C10 at a one-file batch. -/
theorem claim10_allStudentsIsConcat_witness :
    ∃ ls : List (List Student),
      [fileGood].map parseStudentsFromCSV = ls.map Except.ok ∧
      [studDave] = ls.flatten :=
  claim10_allStudentsIsConcat id id [fileGood] layout7 _ _ _ _ rfl

end NexAllot

